import Mathlib

/-!
Verification of the `rap_obsidian_utils` repository (two Python modules,
`cli.py` and `sync.py`) against its natural-language specification.

The Python code is shallowly embedded: strings are `List Char`, file-system
state is a finite partial map from paths to (mtime, content) pairs, Python
floats (mtimes) are rationals, and the SHA-256 digest is an uninterpreted
function parameter.  Each specialized regular expression used by the code is
translated into an executable Lean function realizing its exact matching
semantics (leftmost match, greedy/lazy quantifiers resolved as the Python
`re` engine resolves them for that particular pattern).
-/

namespace RapObsidian

/-- Strings are modelled as lists of characters. -/
abbrev Str := List Char

/-- Shorthand to turn a Lean string literal into the `Str` model. -/
def s2l (s : String) : Str := s.data

/-- Python whitespace (the set matched by `\s` in `re` for `str` patterns and
stripped by `str.strip()`): ASCII whitespace plus the common Unicode
whitespace code points. -/
def isPySpace (c : Char) : Bool :=
  c = ' ' ∨ c = '\t' ∨ c = '\n' ∨ c = '\r' ∨ c = '\x0b' ∨ c = '\x0c' ∨
  c = '\x1c' ∨ c = '\x1d' ∨ c = '\x1e' ∨ c = '\x1f' ∨ c = '\x85' ∨
  c = ' ' ∨ c = ' ' ∨ (' ' ≤ c ∧ c ≤ ' ') ∨
  c = ' ' ∨ c = ' ' ∨ c = ' ' ∨ c = ' ' ∨ c = '　'

/-- Remove trailing Python whitespace (`str.rstrip()`). -/
def rstripP (s : Str) : Str := (s.reverse.dropWhile isPySpace).reverse

/-- Python `str.strip()`: drop leading and trailing whitespace. -/
def pyStrip (s : Str) : Str := rstripP (s.dropWhile isPySpace)

/-- `True` iff `pat` occurs as a contiguous substring of `s`
(Python's `pat in s`). -/
def hasInfix (pat : Str) : Str → Bool
  | [] => pat.isPrefixOf []
  | c :: r => pat.isPrefixOf (c :: r) || hasInfix pat r

/-- Split `s` at the first occurrence of `pat`: returns the part strictly
before the occurrence and the part strictly after it, or `none` when `pat`
does not occur.  This realizes the non-greedy group of the front-matter
regex `^---\n(.*?)\n---`. -/
def splitOnFirst (pat : Str) : Str → Option (Str × Str)
  | [] => if pat.isPrefixOf ([] : Str) then some ([], []) else none
  | c :: r =>
    if pat.isPrefixOf (c :: r) then some ([], (c :: r).drop pat.length)
    else (splitOnFirst pat r).map (fun p => (c :: p.1, p.2))

/-! ## Embedding of `sync.py` -/

/-- `MTIME_TOLERANCE = 1.0` (seconds, modelled as a rational). -/
def MTIME_TOLERANCE : ℚ := 1

/-- `SyncReason`: why a file was marked for sync. -/
inductive SyncReason
  | NEW_FILE
  | MTIME_NEWER
  | CONTENT_CHANGED
deriving DecidableEq

/-- A filesystem path, as a list of components. -/
abbrev SyncPath := List String

/-- The stat+content data of one file: (`st_mtime`, byte content). -/
abbrev FileData := ℚ × List Nat

/-- Filesystem state: a partial map from paths to file data.  `none` models
"the path does not exist". -/
abbrev FS := SyncPath → Option FileData

/-- A file that should be synced (`SyncCandidate`). -/
structure SyncCandidate where
  source_path : SyncPath
  dest_path : SyncPath
  relative_path : SyncPath
  reason : SyncReason
deriving DecidableEq

/-- Result of a sync operation (`SyncResult`). -/
structure SyncResult where
  synced_files : List SyncCandidate
  skipped_files : List SyncPath
  errors : List (SyncPath × Str)
deriving DecidableEq

/-- `should_sync_file(source, dest)` from `sync.py`.  `sha256` is the
(uninterpreted) digest function used by `compute_file_hash`; `source` is the
stat/content data of the source file; `dest = none` models a destination
path that does not exist. -/
def should_sync_file (sha256 : List Nat → List Nat) (source : FileData)
    (dest : Option FileData) : Bool × Option SyncReason :=
  match dest with
  | none => (true, some SyncReason.NEW_FILE)
  | some (dest_mtime, dest_content) =>
    if source.1 > dest_mtime + MTIME_TOLERANCE then
      (true, some SyncReason.MTIME_NEWER)
    else if |source.1 - dest_mtime| ≤ MTIME_TOLERANCE then
      if sha256 source.2 ≠ sha256 dest_content then
        (true, some SyncReason.CONTENT_CHANGED)
      else (false, none)
    else (false, none)

/-- `build_sync_plan(source_dir, dest_dir)` from `sync.py`.  The scanner's
output (`find_markdown_files`) is supplied as the sorted list `rels` of
paths relative to `source_dir`; `isLink p` models `p.is_symlink()`.  The
source files were produced by the scanner, so they exist in `fs`; the
`getD` default is never reached on such inputs. -/
def build_sync_plan (sha256 : List Nat → List Nat) (fs : FS)
    (isLink : SyncPath → Bool) (source_dir dest_dir : SyncPath) :
    List SyncPath → List SyncCandidate × List SyncPath
  | [] => ([], [])
  | rel :: rest =>
    let acc := build_sync_plan sha256 fs isLink source_dir dest_dir rest
    let source_path := source_dir ++ rel
    if isLink source_path then acc
    else
      let dest_path := dest_dir ++ rel
      match should_sync_file sha256 ((fs source_path).getD (0, []))
          (fs dest_path) with
      | (true, some reason) =>
        (⟨source_path, dest_path, rel, reason⟩ :: acc.1, acc.2)
      | _ => (acc.1, rel :: acc.2)

/-- `shutil.copy2(src, dst)`: the destination path receives the source's
content and modification time; every other path is untouched. -/
def copy2 (src dst : SyncPath) (fs : FS) : FS :=
  fun p => if p = dst then fs src else fs p

/-- `execute_sync(candidates, dry_run)` from `sync.py`.  `copyFails c`
models the caught per-file exception: `some msg` when the `mkdir`/`copy2`
call for candidate `c` raises (with `str(e) = msg`), `none` when it
succeeds.  Returns the `SyncResult` together with the final filesystem
state. -/
def execute_sync (copyFails : SyncCandidate → Option Str) :
    List SyncCandidate → Bool → FS → SyncResult × FS
  | [], _, fs => (⟨[], [], []⟩, fs)
  | c :: rest, dry_run, fs =>
    if dry_run then
      let acc := execute_sync copyFails rest dry_run fs
      (⟨c :: acc.1.synced_files, [], acc.1.errors⟩, acc.2)
    else
      match copyFails c with
      | some msg =>
        let acc := execute_sync copyFails rest dry_run fs
        (⟨acc.1.synced_files, [], (c.source_path, msg) :: acc.1.errors⟩,
          acc.2)
      | none =>
        let acc := execute_sync copyFails rest dry_run
          (copy2 c.source_path c.dest_path fs)
        (⟨c :: acc.1.synced_files, [], acc.1.errors⟩, acc.2)

/-! ## Embedding of `cli.py`: `clean_to_ascii` and `normalize_date` -/

/-- The replacement table of `clean_to_ascii` (dash variants → `-`, space
variants → ` `, soft hyphen and zero-width space removed). -/
def ascii_replacements : List (Char × Option Char) :=
  [('–', some '-'), ('—', some '-'), ('‐', some '-'),
   ('‑', some '-'), ('‒', some '-'), ('―', some '-'),
   ('­', none),
   (' ', some ' '), (' ', some ' '), (' ', some ' '),
   (' ', some ' '), (' ', some ' '), ('​', none),
   (' ', some ' '), (' ', some ' '), ('　', some ' ')]

/-- `clean_to_ascii` from `cli.py`: apply the replacement table, then drop
every remaining code point `≥ 128`. -/
def clean_to_ascii (text : Str) : Str :=
  (ascii_replacements.foldl
    (fun t p => t.filterMap (fun c => if c = p.1 then p.2 else some c))
    text).filter (fun c => c.toNat < 128)

/-- `re.sub(r'\s+', ' ', s)`: collapse every whitespace run to one space. -/
def collapseWs : Str → Str
  | [] => []
  | [c] => if isPySpace c then [' '] else [c]
  | a :: b :: r =>
    if isPySpace a && isPySpace b then collapseWs (b :: r)
    else (if isPySpace a then ' ' else a) :: collapseWs (b :: r)

/-- Python `str.lower()` (the inputs it is applied to are ASCII). -/
def lowerStr (s : Str) : Str := s.map Char.toLower

/-- The non-date sentinel list of `normalize_date`. -/
def non_date_patterns : List Str :=
  [s2l "not specified", s2l "unknown", s2l "n/a", s2l "none", s2l "tbd",
   s2l "undated"]

/-- The month-name/abbreviation table of `normalize_date`. -/
def month_names : List (Str × Str) :=
  [(s2l "jan", s2l "January"), (s2l "january", s2l "January"),
   (s2l "feb", s2l "February"), (s2l "february", s2l "February"),
   (s2l "mar", s2l "March"), (s2l "march", s2l "March"),
   (s2l "apr", s2l "April"), (s2l "april", s2l "April"),
   (s2l "may", s2l "May"),
   (s2l "jun", s2l "June"), (s2l "june", s2l "June"),
   (s2l "jul", s2l "July"), (s2l "july", s2l "July"),
   (s2l "aug", s2l "August"), (s2l "august", s2l "August"),
   (s2l "sep", s2l "September"), (s2l "sept", s2l "September"),
   (s2l "september", s2l "September"),
   (s2l "oct", s2l "October"), (s2l "october", s2l "October"),
   (s2l "nov", s2l "November"), (s2l "november", s2l "November"),
   (s2l "dec", s2l "December"), (s2l "december", s2l "December")]

/-- Dictionary lookup `month_names[w]`. -/
def lookupMonth (w : Str) : Option Str :=
  (month_names.find? (fun p => p.1 == w)).map (fun p => p.2)

/-- The season/quarter table of `normalize_date`, in insertion order. -/
def season_map : List (Str × Str) :=
  [(s2l "spring", s2l "Spring"), (s2l "summer", s2l "Summer"),
   (s2l "fall", s2l "Fall"), (s2l "autumn", s2l "Fall"),
   (s2l "winter", s2l "Winter"),
   (s2l "q1", s2l "Q1"), (s2l "q2", s2l "Q2"), (s2l "q3", s2l "Q3"),
   (s2l "q4", s2l "Q4")]

/-- Python `\w` (word character); the scanned strings are ASCII. -/
def isWordChar (c : Char) : Bool := c.isAlpha || c.isDigit || c = '_'

/-- `re.search(r'\b(19|20)\d{2}\b', s)`: scan left to right for a four-digit
year starting `19` or `20` delimited by word boundaries; `prev` is the
character before the current position. -/
def searchYearAux : Option Char → Str → Option Str
  | prev, c1 :: c2 :: c3 :: c4 :: rest =>
    if (match prev with | none => true | some p => !isWordChar p)
        && ((c1 == '1' && c2 == '9') || (c1 == '2' && c2 == '0'))
        && c3.isDigit && c4.isDigit
        && (match rest with | [] => true | n :: _ => !isWordChar n) then
      some [c1, c2, c3, c4]
    else searchYearAux (some c1) (c2 :: c3 :: c4 :: rest)
  | _, _ => none

/-- The year search of `normalize_date`. -/
def searchYear (s : Str) : Option Str := searchYearAux none s

/-- `re.search` driver for an unanchored pattern: try the position-matcher
`f` at every position, leftmost first. -/
def searchPos (f : Str → Option α) : Str → Option α
  | [] => f []
  | c :: r =>
    match f (c :: r) with
    | some v => some v
    | none => searchPos f r

/-- Matcher at one position for `([A-Za-z]+) <ws> <dash or slash> <ws> ([A-Za-z]+) <ws> (\d{4})?`
(month-range pattern); returns groups 1 and 2. -/
def rangeAt (s : Str) : Option (Str × Str) :=
  let r1 := s.takeWhile Char.isAlpha
  if r1.isEmpty then none
  else
    match (s.drop r1.length).dropWhile isPySpace with
    | c :: t2 =>
      if c == '-' || c == '/' then
        let r2 := (t2.dropWhile isPySpace).takeWhile Char.isAlpha
        if r2.isEmpty then none else some (r1, r2)
      else none
    | [] => none

/-- `\d{4}` at the start of `t`: the four digit characters, if present. -/
def take4digits : Str → Option Str
  | a :: b :: c :: d :: _ =>
    if a.isDigit && b.isDigit && c.isDigit && d.isDigit then some [a, b, c, d]
    else none
  | _ => none

/-- Matcher at one position for `([A-Za-z]+)\s*,?\s*(\d{4})` (month-year
pattern); returns group 1. -/
def monthYearAt (s : Str) : Option Str :=
  let r1 := s.takeWhile Char.isAlpha
  if r1.isEmpty then none
  else
    let t1 := (s.drop r1.length).dropWhile isPySpace
    let t2 := match t1 with
      | ',' :: u => u.dropWhile isPySpace
      | _ => t1
    if (take4digits t2).isSome then some r1 else none

/-- `,?\s*(\d{4})` at the start of `t`. -/
def tryCommaYear (t : Str) : Option Str :=
  let t1 := match t with | ',' :: u => u | _ => t
  take4digits (t1.dropWhile isPySpace)

/-- Matcher at one position for `([A-Za-z]+)\s+(\d{1,2}),?\s*(\d{4})`
("Month Day, Year"); the greedy `\d{1,2}` tries two digits, then one. -/
def fullDate1At (s : Str) : Option (Str × Str × Str) :=
  let r1 := s.takeWhile Char.isAlpha
  if r1.isEmpty then none
  else
    let rest := s.drop r1.length
    let ws := rest.takeWhile isPySpace
    if ws.isEmpty then none
    else
      match rest.drop ws.length with
      | a :: t1 =>
        if a.isDigit then
          match t1 with
          | b :: t2 =>
            if b.isDigit then
              match tryCommaYear t2 with
              | some y => some (r1, [a, b], y)
              | none => (tryCommaYear t1).map (fun y => (r1, [a], y))
            else (tryCommaYear t1).map (fun y => (r1, [a], y))
          | [] => (tryCommaYear t1).map (fun y => (r1, [a], y))
        else none
      | [] => none

/-- `\s+([A-Za-z]+)\s*,?\s*(\d{4})` at the start of `t`. -/
def alphaCommaYear (t : Str) : Option (Str × Str) :=
  let ws := t.takeWhile isPySpace
  if ws.isEmpty then none
  else
    let t1 := t.drop ws.length
    let r2 := t1.takeWhile Char.isAlpha
    if r2.isEmpty then none
    else
      let t2 := (t1.drop r2.length).dropWhile isPySpace
      let t3 := match t2 with
        | ',' :: u => u.dropWhile isPySpace
        | _ => t2
      (take4digits t3).map (fun y => (r2, y))

/-- Matcher at one position for `(\d{1,2})\s+([A-Za-z]+)\s*,?\s*(\d{4})`
("Day Month Year"). -/
def fullDate2At (s : Str) : Option (Str × Str × Str) :=
  match s with
  | a :: t1 =>
    if a.isDigit then
      match t1 with
      | b :: t2 =>
        if b.isDigit then
          match alphaCommaYear t2 with
          | some p => some ([a, b], p.1, p.2)
          | none => (alphaCommaYear t1).map (fun p => ([a], p.1, p.2))
        else (alphaCommaYear t1).map (fun p => ([a], p.1, p.2))
      | [] => none
    else none
  | [] => none

/-- Matcher at one position for `(\d{1,2}) <slash or dash> (\d{4})`; returns group 1
(the month digits). -/
def num1At (s : Str) : Option Str :=
  match s with
  | a :: t1 =>
    if a.isDigit then
      let oneDigit : Option Str :=
        match t1 with
        | c :: u =>
          if (c == '/' || c == '-') && (take4digits u).isSome then some [a]
          else none
        | [] => none
      match t1 with
      | b :: t2 =>
        if b.isDigit then
          match t2 with
          | c :: u =>
            if (c == '/' || c == '-') && (take4digits u).isSome then
              some [a, b]
            else oneDigit
          | [] => oneDigit
        else oneDigit
      | [] => none
    else none
  | [] => none

/-- Matcher at one position for `(\d{4}) <slash or dash> (\d{1,2})`; returns group 2
(the month digits). -/
def num2At (s : Str) : Option Str :=
  match s with
  | a :: b :: c :: d :: t =>
    if a.isDigit && b.isDigit && c.isDigit && d.isDigit then
      match t with
      | sep :: u =>
        if sep == '/' || sep == '-' then
          match u with
          | x :: v =>
            if x.isDigit then
              match v with
              | y :: _ => if y.isDigit then some [x, y] else some [x]
              | [] => some [x]
            else none
          | [] => none
        else none
      | [] => none
    else none
  | _ => none

/-- `int(...)` on a digit string. -/
def digitsToNat (s : Str) : Nat := s.foldl (fun n c => n * 10 + (c.toNat - 48)) 0

/-- `calendar.month_name[n]` for `n ∈ 1..12`. -/
def month_name : Nat → Str
  | 1 => s2l "January"
  | 2 => s2l "February"
  | 3 => s2l "March"
  | 4 => s2l "April"
  | 5 => s2l "May"
  | 6 => s2l "June"
  | 7 => s2l "July"
  | 8 => s2l "August"
  | 9 => s2l "September"
  | 10 => s2l "October"
  | 11 => s2l "November"
  | 12 => s2l "December"
  | _ => []

/-- `re.fullmatch(r'\s*(19|20)\d{2}\s*', s)`. -/
def fullmatchYear (s : Str) : Bool :=
  match s.dropWhile isPySpace with
  | c1 :: c2 :: c3 :: c4 :: r =>
    ((c1 == '1' && c2 == '9') || (c1 == '2' && c2 == '0'))
      && c3.isDigit && c4.isDigit && r.all isPySpace
  | _ => false

/-- Step 9 of `normalize_date`: bare year when the whole string is the year. -/
def nd_year_only (cleaned year : Str) : Str :=
  if fullmatchYear cleaned then year else cleaned

/-- Step 8b of `normalize_date`: the `YYYY-MM` / `YYYY/MM` numeric pattern. -/
def nd_numeric2 (cleaned year : Str) : Str :=
  match searchPos num2At cleaned with
  | some g =>
    let m := digitsToNat g
    if 1 ≤ m ∧ m ≤ 12 then month_name m ++ s2l " " ++ year
    else nd_year_only cleaned year
  | none => nd_year_only cleaned year

/-- Step 8a of `normalize_date`: the `MM/YYYY` / `MM-YYYY` numeric pattern. -/
def nd_numeric (cleaned year : Str) : Str :=
  match searchPos num1At cleaned with
  | some g =>
    let m := digitsToNat g
    if 1 ≤ m ∧ m ≤ 12 then month_name m ++ s2l " " ++ year
    else nd_numeric2 cleaned year
  | none => nd_numeric2 cleaned year

/-- The group scan `for g in match.groups(): if g.lower() in month_names`. -/
def firstMonth : List Str → Option Str
  | [] => none
  | g :: rest =>
    match lookupMonth (lowerStr g) with
    | some m => some m
    | none => firstMonth rest

/-- Step 7b of `normalize_date`: the "Day Month Year" pattern. -/
def nd_full_date2 (cleaned year : Str) : Str :=
  match searchPos fullDate2At cleaned with
  | some g =>
    match firstMonth [g.1, g.2.1, g.2.2] with
    | some m => m ++ s2l " " ++ year
    | none => nd_numeric cleaned year
  | none => nd_numeric cleaned year

/-- Step 7a of `normalize_date`: the "Month Day, Year" pattern. -/
def nd_full_date (cleaned year : Str) : Str :=
  match searchPos fullDate1At cleaned with
  | some g =>
    match firstMonth [g.1, g.2.1, g.2.2] with
    | some m => m ++ s2l " " ++ year
    | none => nd_full_date2 cleaned year
  | none => nd_full_date2 cleaned year

/-- Step 6 of `normalize_date`: the "Month Year" pattern. -/
def nd_month_year (cleaned year : Str) : Str :=
  match searchPos monthYearAt cleaned with
  | some g =>
    match lookupMonth (lowerStr g) with
    | some m => m ++ s2l " " ++ year
    | none => nd_full_date cleaned year
  | none => nd_full_date cleaned year

/-- Step 5 of `normalize_date`: season/quarter keyword search, in the
insertion order of `season_map`. -/
def nd_season (cleaned year : Str) : Str :=
  match season_map.find? (fun p => hasInfix p.1 (lowerStr cleaned)) with
  | some p => p.2 ++ s2l " " ++ year
  | none => nd_month_year cleaned year

/-- Step 4 of `normalize_date`: the month-range pattern. -/
def nd_range (cleaned year : Str) : Str :=
  match searchPos rangeAt cleaned with
  | some p =>
    match lookupMonth (lowerStr p.1), lookupMonth (lowerStr p.2) with
    | some m1, some m2 => m1 ++ s2l "-" ++ m2 ++ s2l " " ++ year
    | _, _ => nd_season cleaned year
  | none => nd_season cleaned year

/-- `normalize_date(date_str)` from `cli.py`. -/
def normalize_date (date_str : Str) : Str :=
  if date_str.isEmpty then []
  else
    let cleaned := collapseWs (pyStrip (clean_to_ascii date_str))
    if non_date_patterns.contains (lowerStr cleaned) || cleaned.isEmpty then
      cleaned
    else
      match searchYear cleaned with
      | none => cleaned
      | some year => nd_range cleaned year

/-! ## Embedding of `cli.py`: `extract_metadata_from_markdown` -/

/-- Container for extracted markdown metadata (`MarkdownMetadata`). -/
structure MarkdownMetadata where
  title : Str
  authors : List Str
  book : Str
  publication_date : Str
deriving DecidableEq

/-- `(?:\s*$|\s*\n)` in `re.MULTILINE` at the start of `t`: the maximal
whitespace run from here reaches the end of the string or contains a
newline (a position where `$` can fire after skipping whitespace). -/
def trailingOk (t : Str) : Bool :=
  let run := t.takeWhile isPySpace
  run.length == t.length || run.contains '\n'

/-- The lazy group `(.+?)` followed by `(?:\s*$|\s*\n)`: the shortest
non-empty newline-free capture after which the trailing alternation
matches. -/
def lazyCapture : Str → Option Str
  | [] => none
  | c :: r =>
    if c == '\n' then none
    else if trailingOk r then some [c]
    else (lazyCapture r).map (fun l => c :: l)

/-- Backtracking over the greedy `\s+` of the title pattern: try the
maximal whitespace run first, then shorter ones, never the empty run. -/
def titleTryK (r : Str) : Nat → Option Str
  | 0 => none
  | k + 1 =>
    match lazyCapture (r.drop (k + 1)) with
    | some cap => some cap
    | none => titleTryK r k

/-- Matcher at one line start for `^#\s+(.+?)(?:\s*$|\s*\n)` (the title
pattern of `extract_metadata_from_markdown`). -/
def titleHashAt : Str → Option Str
  | '#' :: r =>
    let ws := r.takeWhile isPySpace
    if ws.isEmpty then none else titleTryK r ws.length
  | _ => none

/-- Backtracking over a greedy `\s*`: try the maximal whitespace run first,
then shorter ones, down to the empty run. -/
def labelTryK (r : Str) : Nat → Option Str
  | 0 => lazyCapture r
  | k + 1 =>
    match lazyCapture (r.drop (k + 1)) with
    | some cap => some cap
    | none => labelTryK r k

/-- Matcher at one position for `<label>\s*(.+?)(?:\s*$|\s*\n)`, the shape
of the `**Author(s):**` / `**Publication:**` / `**Date:**` patterns. -/
def labeledAt (label : Str) (s : Str) : Option Str :=
  if label.isPrefixOf s then
    let r := s.drop label.length
    labelTryK r (r.takeWhile isPySpace).length
  else none

/-- `re.search` driver for a `^`-anchored pattern under `re.MULTILINE`:
try the matcher after each newline, leftmost first. -/
def mlSearchAux (p : Str → Option α) : Str → Option α
  | [] => none
  | c :: r =>
    if c == '\n' then
      match p r with
      | some v => some v
      | none => mlSearchAux p r
    else mlSearchAux p r

/-- `re.search` for a `^`-anchored pattern under `re.MULTILINE`: try the
start of the string, then after each newline. -/
def mlSearch (p : Str → Option α) (s : Str) : Option α :=
  match p s with
  | some v => some v
  | none => mlSearchAux p s

/-- The `\s+and\s+` separator alternative of the author-splitting regex at
the start of `s`, with the greedy leading `\s+` backtracking from the
maximal run down to one character; returns the remainder after the
separator. -/
def andSepK (s : Str) : Nat → Option Str
  | 0 => none
  | k + 1 =>
    let t := s.drop (k + 1)
    if (s2l "and").isPrefixOf t then
      let u := t.drop 3
      let ws2 := u.takeWhile isPySpace
      if ws2.isEmpty then andSepK s k else some (u.drop ws2.length)
    else andSepK s k

/-- A separator of `re.split(r'[,;&]|\s+and\s+', ...)` at the start of `s`
(the single-character class is the preferred alternative); returns the
remainder after the separator. -/
def sepAt (s : Str) : Option Str :=
  match s with
  | c :: r =>
    if c == ',' || c == ';' || c == '&' then some r
    else andSepK (c :: r) ((c :: r).takeWhile isPySpace).length
  | [] => none

/-- Fuelled scanner for `re.split`: cut at each leftmost separator match.
The fuel only bounds the recursion; `splitRe` supplies enough for any
input. -/
def splitReAux : Nat → Str → Str → List Str
  | 0, cur, _ => [cur.reverse]
  | _ + 1, cur, [] => [cur.reverse]
  | fuel + 1, cur, c :: r =>
    match sepAt (c :: r) with
    | some rest => cur.reverse :: splitReAux fuel [] rest
    | none => splitReAux fuel (c :: cur) r

/-- `re.split(r'[,;&]|\s+and\s+', s)`. -/
def splitRe (s : Str) : List Str := splitReAux (s.length + 1) [] s

/-- `extract_metadata_from_markdown(content)` from `cli.py`. -/
def extract_metadata_from_markdown (content : Str) : MarkdownMetadata :=
  let title := match mlSearch titleHashAt content with
    | some g => pyStrip g
    | none => []
  let authors_str :=
    match searchPos (labeledAt (s2l "**Author(s):**")) content with
    | some g => pyStrip g
    | none => []
  let authors := ((splitRe authors_str).map pyStrip).filter (fun a => !a.isEmpty)
  let book := match searchPos (labeledAt (s2l "**Publication:**")) content with
    | some g => pyStrip g
    | none => []
  let raw_date := match searchPos (labeledAt (s2l "**Date:**")) content with
    | some g => pyStrip g
    | none => []
  ⟨title, authors, book, normalize_date raw_date⟩

/-! ## Embedding of `cli.py`: `add_title_to_frontmatter` -/

/-- One rendered author entry: `  - "[[<author>]]"`. -/
def authorLine (a : Str) : Str := s2l "  - \"[[" ++ a ++ s2l "]]\""

/-- Python `"\n".join(...)`. -/
def joinNl : List Str → Str
  | [] => []
  | [x] => x
  | x :: y :: r => x ++ '\n' :: joinNl (y :: r)

/-- The `new_fields` block built by `add_title_to_frontmatter`: `Title`,
`Authors` (wiki-link sequence), `Book`, `Date`, in that fixed order. -/
def newFields (m : MarkdownMetadata) : Str :=
  s2l "Title: \"" ++ m.title ++ s2l "\"\nAuthors:\n" ++
    joinNl (m.authors.map authorLine) ++
    s2l "\nBook: \"[[" ++ m.book ++ s2l "]]\"\nDate: \"" ++
    m.publication_date ++ s2l "\""

/-- `re.compile(r'^---\n(.*?)\n---', re.DOTALL).match(content)`: the
delimited front-matter block at the start of the document.  Returns the
non-greedy group 1 and the text after the match end. -/
def frontmatterMatch (content : Str) : Option (Str × Str) :=
  if (s2l "---\n").isPrefixOf content then
    splitOnFirst (s2l "\n---") (content.drop 4)
  else none

/-- `add_title_to_frontmatter(content, metadata)` from `cli.py`. -/
def add_title_to_frontmatter (content : Str) (metadata : MarkdownMetadata) :
    Str :=
  match frontmatterMatch content with
  | some (g1, rest) =>
    s2l "---\n" ++ newFields metadata ++ s2l "\n" ++ pyStrip g1 ++
      s2l "\n---" ++ rest
  | none => s2l "---\n" ++ newFields metadata ++ s2l "\n---\n" ++ content

/-! ## Embedding of `cli.py`: `validate_frontmatter` -/

/-- The characters of the lazy `(.+?)` capture before the closing quote:
everything before the first `"`, failing on a newline or at the end. -/
def untilQuote : Str → Option Str
  | [] => none
  | c :: r =>
    if c == '"' then some []
    else if c == '\n' then none
    else (untilQuote r).map (fun l => c :: l)

/-- The quoted-value group `"(.+?)"` after its opening quote: a non-empty
lazy capture up to the next closing quote. -/
def matchQuoted : Str → Option Str
  | [] => none
  | c :: r =>
    if c == '\n' then none
    else (untilQuote r).map (fun l => c :: l)

/-- Matcher at one line start for `^<label>\s*"(.+?)"` (the `Title:` and
`Date:` checks of `validate_frontmatter`).  The greedy `\s*` needs no
backtracking here: `"` is not whitespace, so only the maximal run can be
followed by the opening quote. -/
def quotedFieldAt (label : Str) (s : Str) : Option Str :=
  if label.isPrefixOf s then
    match (s.drop label.length).dropWhile isPySpace with
    | '"' :: r => matchQuoted r
    | _ => none
  else none

/-- `(.+?)$` under `re.MULTILINE` at the start of `t`: the rest of the
current line, which must be non-empty. -/
def lineRest : Str → Option Str
  | [] => none
  | c :: t =>
    if c == '\n' then none
    else some (c :: t.takeWhile (fun d => !(d == '\n')))

/-- Backtracking over the greedy `\s*` of the fallback `Book:` pattern. -/
def bookTryK (r : Str) : Nat → Option Str
  | 0 => lineRest r
  | k + 1 =>
    match lineRest (r.drop (k + 1)) with
    | some v => some v
    | none => bookTryK r k

/-- Matcher at one line start for `^Book:\s*(.+?)$` (the fallback `Book:`
check of `validate_frontmatter`). -/
def bookLineAt (s : Str) : Option Str :=
  if (s2l "Book:").isPrefixOf s then
    let r := s.drop 5
    bookTryK r (r.takeWhile isPySpace).length
  else none

/-- Result of front matter validation (`ValidationResult`). -/
structure ValidationResult where
  is_valid : Bool
  errors : List Str
  warnings : List Str
deriving DecidableEq

/-- `validate_frontmatter(content, metadata)` from `cli.py`. -/
def validate_frontmatter (content : Str) (metadata : MarkdownMetadata) :
    ValidationResult :=
  match frontmatterMatch content with
  | none =>
    ⟨false, [s2l "Front matter delimiters (---) not found at start of file"],
      []⟩
  | some (frontmatter, _) =>
    let titleErrs :=
      match mlSearch (quotedFieldAt (s2l "Title:")) frontmatter with
      | none => [s2l "Title field not found in front matter"]
      | some t =>
        if t = metadata.title then []
        else [s2l "Title mismatch: expected '" ++ metadata.title ++
          s2l "', found '" ++ t ++ s2l "'"]
    let authorErrs :=
      if !hasInfix (s2l "Authors:") frontmatter then
        [s2l "Authors field not found in front matter"]
      else
        metadata.authors.filterMap (fun a =>
          if hasInfix (s2l "\"[[" ++ a ++ s2l "]]\"") frontmatter then none
          else some (s2l "Author '" ++ a ++
            s2l "' not found in expected format \"[[" ++ a ++ s2l "]]\""))
    let expected_book := s2l "Book: \"[[" ++ metadata.book ++ s2l "]]\""
    let bookErrs :=
      if hasInfix expected_book frontmatter then []
      else
        match mlSearch bookLineAt frontmatter with
        | none => [s2l "Book field not found in front matter"]
        | some _ =>
          [s2l "Book field format incorrect: expected '" ++ expected_book ++
            s2l "'"]
    let dateRes :=
      match mlSearch (quotedFieldAt (s2l "Date:")) frontmatter with
      | none => ([s2l "Date field not found in front matter"], ([] : List Str))
      | some d =>
        if d = metadata.publication_date then ([], [])
        else ([], [s2l "Date value: '" ++ d ++
          s2l "' (normalized from original)"])
    let emptyWarns :=
      (if metadata.title.isEmpty then
        [s2l "Title is empty - could not extract from markdown"] else []) ++
      (if metadata.authors.isEmpty then
        [s2l "No authors found - could not extract from markdown"] else []) ++
      (if metadata.book.isEmpty then
        [s2l "Book/Publication is empty - could not extract from markdown"]
       else []) ++
      (if metadata.publication_date.isEmpty then
        [s2l "Date is empty - could not extract from markdown"] else [])
    let errors := titleErrs ++ authorErrs ++ bookErrs ++ dateRes.1
    ⟨errors.isEmpty, errors, dateRes.2 ++ emptyWarns⟩

/-! ## Line-start counting (used to state "contains two full sets of keys") -/

/-- Number of inner line starts (positions right after a `'\n'`) of `s` at
which `key` begins. -/
def countStartsAux (key : Str) : Str → Nat
  | [] => 0
  | c :: r =>
    (if c = '\n' ∧ key.isPrefixOf r then 1 else 0) + countStartsAux key r

/-- Number of line starts (position 0 or right after a `'\n'`) of `s` at
which `key` begins: the number of lines of `s` starting with `key`. -/
def countStarts (key s : Str) : Nat :=
  (if key.isPrefixOf s then 1 else 0) + countStartsAux key s

/-! ## Claims about `sync.py` -/

/-- C2: `should_sync_file` follows the strict three-tier precedence:
missing destination → `(true, NEW_FILE)`; else source mtime beyond the
1-second tolerance ahead → `(true, MTIME_NEWER)`; else mtimes within
tolerance → hash comparison, `(true, CONTENT_CHANGED)` on mismatch and
`(false, none)` on match; otherwise the destination is strictly newer
beyond tolerance and the result is `(false, none)`. -/
theorem C2_should_sync_file_tiers (sha256 : List Nat → List Nat)
    (source : FileData) (dest : Option FileData) :
    (dest = none →
      should_sync_file sha256 source dest = (true, some SyncReason.NEW_FILE)) ∧
    (∀ dm dc, dest = some (dm, dc) →
      (source.1 > dm + MTIME_TOLERANCE →
        should_sync_file sha256 source dest = (true, some SyncReason.MTIME_NEWER)) ∧
      (¬ (source.1 > dm + MTIME_TOLERANCE) → |source.1 - dm| ≤ MTIME_TOLERANCE →
        (sha256 source.2 ≠ sha256 dc →
          should_sync_file sha256 source dest = (true, some SyncReason.CONTENT_CHANGED)) ∧
        (sha256 source.2 = sha256 dc →
          should_sync_file sha256 source dest = (false, none))) ∧
      (¬ (source.1 > dm + MTIME_TOLERANCE) → ¬ (|source.1 - dm| ≤ MTIME_TOLERANCE) →
        dm > source.1 + MTIME_TOLERANCE ∧
        should_sync_file sha256 source dest = (false, none))) := by
  refine ⟨?_, ?_⟩
  · rintro rfl; rfl
  · rintro dm dc rfl
    refine ⟨?_, ?_, ?_⟩
    · intro h1
      simp [should_sync_file, h1]
    · intro h1 h2
      refine ⟨?_, ?_⟩
      · intro hne
        simp [should_sync_file, h1, h2, hne]
      · intro heq
        simp [should_sync_file, h1, h2, heq]
    · intro h1 h2
      have h1' : source.1 ≤ dm + MTIME_TOLERANCE := not_lt.mp h1
      have h2' : MTIME_TOLERANCE < |source.1 - dm| := not_le.mp h2
      constructor
      · rcases abs_cases (source.1 - dm) with ⟨he, _⟩ | ⟨he, _⟩ <;>
          rw [he] at h2' <;>
          simp only [MTIME_TOLERANCE] at h1' h2' ⊢ <;> linarith
      · simp [should_sync_file, h1, h2]

/-- C2 witness: the theorem applied at concrete inputs exercising every
tier of the decision. -/
theorem C2_should_sync_file_tiers_witness :
    should_sync_file (fun l => l) ((0 : ℚ), []) none
      = (true, some SyncReason.NEW_FILE) ∧
    should_sync_file (fun l => l) ((5 : ℚ), []) (some ((0 : ℚ), []))
      = (true, some SyncReason.MTIME_NEWER) ∧
    should_sync_file (fun l => l) ((0 : ℚ), [0]) (some ((0 : ℚ), [1]))
      = (true, some SyncReason.CONTENT_CHANGED) ∧
    should_sync_file (fun l => l) ((0 : ℚ), [2]) (some ((0 : ℚ), [2]))
      = (false, none) ∧
    should_sync_file (fun l => l) ((0 : ℚ), [2]) (some ((3 : ℚ), [2]))
      = (false, none) := by
  refine ⟨(C2_should_sync_file_tiers _ _ _).1 rfl,
    (((C2_should_sync_file_tiers _ _ _).2 0 [] rfl).1 (by norm_num [MTIME_TOLERANCE])),
    ((((C2_should_sync_file_tiers _ _ _).2 0 [1] rfl).2.1 (by norm_num [MTIME_TOLERANCE])
      (by norm_num [MTIME_TOLERANCE])).1 (by decide)),
    ((((C2_should_sync_file_tiers _ _ _).2 0 [2] rfl).2.1 (by norm_num [MTIME_TOLERANCE])
      (by norm_num [MTIME_TOLERANCE])).2 rfl),
    ((((C2_should_sync_file_tiers _ _ _).2 3 [2] rfl).2.2 (by norm_num [MTIME_TOLERANCE])
      ?_).2)⟩
  rw [show (0 : ℚ) - 3 = -3 by norm_num, abs_neg]
  norm_num [MTIME_TOLERANCE]

/-- C4: every candidate produced by `build_sync_plan` maps
`source_dir/relative_path` to `dest_dir/relative_path` (destination layout
mirrors source), and `execute_sync` leaves every path that is not a
candidate's destination path untouched — in particular a file present only
in the destination beforehand is never deleted, renamed or modified. -/
theorem C4_sync_mirrors_and_frame (sha256 : List Nat → List Nat) (fs : FS)
    (isLink : SyncPath → Bool) (source_dir dest_dir : SyncPath)
    (rels : List SyncPath) :
    (∀ c ∈ (build_sync_plan sha256 fs isLink source_dir dest_dir rels).1,
      c.source_path = source_dir ++ c.relative_path ∧
      c.dest_path = dest_dir ++ c.relative_path) ∧
    (∀ (copyFails : SyncCandidate → Option Str) (cands : List SyncCandidate)
      (dry_run : Bool) (fs₀ : FS) (p : SyncPath),
      p ∉ cands.map SyncCandidate.dest_path →
      (execute_sync copyFails cands dry_run fs₀).2 p = fs₀ p) := by
  constructor
  · induction rels with
    | nil => intro c hc; simp [build_sync_plan] at hc
    | cons rel rest ih =>
      intro c hc
      simp only [build_sync_plan] at hc
      split at hc
      · exact ih c hc
      · split at hc
        · rcases List.mem_cons.mp hc with rfl | hmem
          · exact ⟨rfl, rfl⟩
          · exact ih c hmem
        · exact ih c hc
  · intro copyFails cands dry_run
    induction cands with
    | nil => intro fs₀ p _; rfl
    | cons c rest ih =>
      intro fs₀ p hp
      have hp1 : p ≠ c.dest_path := fun h => hp (by simp [h])
      have hp2 : p ∉ rest.map SyncCandidate.dest_path :=
        fun h => hp (by simp [h])
      simp only [execute_sync]
      split
      · exact ih fs₀ p hp2
      · split
        · exact ih fs₀ p hp2
        · rw [ih _ p hp2]
          simp [copy2, hp1]

/-- C4 witness: the theorem applied to a concrete one-file plan and a
concrete destination-only path. -/
theorem C4_sync_mirrors_and_frame_witness :
    ((⟨["src", "a.md"], ["dst", "a.md"], ["a.md"],
        SyncReason.NEW_FILE⟩ : SyncCandidate).source_path =
      ["src"] ++ (⟨["src", "a.md"], ["dst", "a.md"], ["a.md"],
        SyncReason.NEW_FILE⟩ : SyncCandidate).relative_path ∧
     (⟨["src", "a.md"], ["dst", "a.md"], ["a.md"],
        SyncReason.NEW_FILE⟩ : SyncCandidate).dest_path =
      ["dst"] ++ (⟨["src", "a.md"], ["dst", "a.md"], ["a.md"],
        SyncReason.NEW_FILE⟩ : SyncCandidate).relative_path) ∧
    (execute_sync (fun _ => none)
        [⟨["src", "a.md"], ["dst", "a.md"], ["a.md"], SyncReason.NEW_FILE⟩]
        false
        (fun p => if p = ["src", "a.md"] then some ((0 : ℚ), [1]) else none)).2
      ["dst", "b.md"] =
    (fun p => if p = ["src", "a.md"] then some ((0 : ℚ), [1]) else none)
      ["dst", "b.md"] := by
  refine ⟨(C4_sync_mirrors_and_frame (fun l => l)
      (fun p => if p = ["src", "a.md"] then some ((0 : ℚ), [1]) else none)
      (fun _ => false) ["src"] ["dst"] [["a.md"]]).1 _ ?_,
    (C4_sync_mirrors_and_frame (fun l => l)
      (fun p => if p = ["src", "a.md"] then some ((0 : ℚ), [1]) else none)
      (fun _ => false) ["src"] ["dst"] [["a.md"]]).2 (fun _ => none) _ false _
      ["dst", "b.md"] (by decide)⟩
  · show _ ∈ (build_sync_plan _ _ _ _ _ _).1
    simp [build_sync_plan, should_sync_file]

/-- C8: in a non-dry run, `execute_sync` partitions the candidates: the
synced list is exactly the candidates whose copy succeeds (in order), and
the error list is exactly the `(source_path, message)` pairs of the
candidates whose copy fails (in order) — so one failure never prevents the
remaining candidates from being processed. -/
theorem C8_execute_sync_partitions (copyFails : SyncCandidate → Option Str)
    (cands : List SyncCandidate) (fs : FS) :
    (execute_sync copyFails cands false fs).1.synced_files =
      cands.filter (fun c => (copyFails c).isNone) ∧
    (execute_sync copyFails cands false fs).1.errors =
      cands.filterMap (fun c => (copyFails c).map (fun m => (c.source_path, m))) := by
  induction cands generalizing fs with
  | nil => exact ⟨rfl, rfl⟩
  | cons c rest ih =>
    simp only [execute_sync, if_neg (Bool.false_ne_true)]
    cases hc : copyFails c with
    | some msg =>
      simp [List.filter_cons, List.filterMap_cons, hc, (ih fs).1, (ih fs).2]
    | none =>
      simp [List.filter_cons, List.filterMap_cons, hc,
        (ih (copy2 c.source_path c.dest_path fs)).1,
        (ih (copy2 c.source_path c.dest_path fs)).2]

/-- C10: `execute_sync` never populates the skipped-files component of its
result, in both dry-run and real modes (skipped files are tracked only
during planning). -/
theorem C10_execute_sync_skipped_empty (copyFails : SyncCandidate → Option Str)
    (cands : List SyncCandidate) (dry_run : Bool) (fs : FS) :
    (execute_sync copyFails cands dry_run fs).1.skipped_files = [] := by
  cases cands with
  | nil => rfl
  | cons c rest =>
    simp only [execute_sync]
    split
    · rfl
    · split <;> rfl

/-! ## Claims about `normalize_date` and extraction -/

/-- C3: the eight concrete date-normalization equalities, including the
"year present but no month" fall-through returning the cleaned input
unchanged. -/
theorem C3_normalize_date_vectors :
    normalize_date (s2l "May 2015") = s2l "May 2015" ∧
    normalize_date (s2l "Jan-Feb 2020") = s2l "January-February 2020" ∧
    normalize_date (s2l "Spring 2023") = s2l "Spring 2023" ∧
    normalize_date (s2l "05/2015") = s2l "May 2015" ∧
    normalize_date (s2l "2015-05") = s2l "May 2015" ∧
    normalize_date (s2l "2023") = s2l "2023" ∧
    normalize_date (s2l "not specified") = s2l "not specified" ∧
    normalize_date (s2l "circa 2015 sometime") = s2l "circa 2015 sometime" :=
  ⟨rfl, rfl, rfl, rfl, rfl, rfl, rfl, rfl⟩

/-- C9: extraction on the concrete document with an H1 title, an
`**Author(s):**` line with two comma-separated authors, a
`**Publication:**` line and a `**Date:**` line. -/
theorem C9_extraction_round_trip :
    extract_metadata_from_markdown
      (s2l "# My Title\n\n**Author(s):** A. One, B. Two\n**Publication:** Journal X\n**Date:** March 2020\n") =
    ⟨s2l "My Title", [s2l "A. One", s2l "B. Two"], s2l "Journal X",
      s2l "March 2020"⟩ := rfl

/-! ## Claims about `validate_frontmatter` -/

/-- C7: `is_valid` is true iff the collected error list is empty, and the
error list does not depend on the expected publication date at all — a
date mismatch is recorded only as a warning, so it can never make
`is_valid` false. -/
theorem C7_date_mismatch_never_error (content : Str) (m : MarkdownMetadata)
    (d : Str) :
    ((validate_frontmatter content m).is_valid = true ↔
      (validate_frontmatter content m).errors = []) ∧
    (validate_frontmatter content
        { m with publication_date := d }).errors =
      (validate_frontmatter content m).errors := by
  constructor
  · unfold validate_frontmatter
    cases hm : frontmatterMatch content with
    | none => simp
    | some p => simp [List.isEmpty_iff]
  · unfold validate_frontmatter
    cases hm : frontmatterMatch content with
    | none => rfl
    | some p =>
      simp only
      cases hd : mlSearch (quotedFieldAt (s2l "Date:")) p.1 with
      | none => rfl
      | some d' =>
        simp only [apply_ite Prod.fst, ite_self]

/-! ## Helper lemmas about prefixes, infixes and `splitOnFirst` -/

theorem isPrefixOf_iff (l : Str) : ∀ s : Str,
    l.isPrefixOf s = true ↔ ∃ t, s = l ++ t := by
  induction l with
  | nil => intro s; simp [List.isPrefixOf]
  | cons a l ih =>
    intro s
    cases s with
    | nil => simp [List.isPrefixOf]
    | cons b s =>
      simp only [List.isPrefixOf, Bool.and_eq_true, beq_iff_eq, ih,
        List.cons_append]
      constructor
      · rintro ⟨rfl, t, rfl⟩
        exact ⟨t, rfl⟩
      · rintro ⟨t, h⟩
        injection h with h1 h2
        exact ⟨h1.symm, t, h2⟩

theorem isPrefixOf_append_self (l t : Str) : l.isPrefixOf (l ++ t) = true :=
  (isPrefixOf_iff l _).mpr ⟨t, rfl⟩

theorem hasInfix_iff (pat : Str) : ∀ s : Str,
    hasInfix pat s = true ↔ ∃ x y, s = x ++ pat ++ y := by
  intro s
  induction s with
  | nil =>
    simp only [hasInfix, isPrefixOf_iff]
    constructor
    · rintro ⟨t, ht⟩
      exact ⟨[], t, by simpa using ht⟩
    · rintro ⟨x, y, hxy⟩
      obtain ⟨hxp, hy⟩ := List.append_eq_nil.mp hxy.symm
      obtain ⟨hx, hp⟩ := List.append_eq_nil.mp hxp
      exact ⟨[], by simp [hp]⟩
  | cons c r ih =>
    simp only [hasInfix, Bool.or_eq_true, isPrefixOf_iff, ih]
    constructor
    · rintro (⟨t, ht⟩ | ⟨x, y, hxy⟩)
      · exact ⟨[], t, by simpa using ht⟩
      · exact ⟨c :: x, y, by simp [hxy]⟩
    · rintro ⟨x, y, hxy⟩
      cases x with
      | nil => exact Or.inl ⟨y, by simpa using hxy⟩
      | cons d x =>
        injection hxy with h1 h2
        exact Or.inr ⟨x, y, h2⟩

theorem hasInfix_of_parts (pat u v : Str) :
    hasInfix pat (u ++ pat ++ v) = true :=
  (hasInfix_iff pat _).mpr ⟨u, v, rfl⟩

theorem hasInfix_sub (pat t u v : Str) (h : hasInfix pat t = true) :
    hasInfix pat (u ++ t ++ v) = true := by
  obtain ⟨x, y, rfl⟩ := (hasInfix_iff pat t).mp h
  exact (hasInfix_iff pat _).mpr ⟨u ++ x, y ++ v, by simp [List.append_assoc]⟩

theorem hasInfix_of_prefix (pat s : Str) (h : pat.isPrefixOf s = true) :
    hasInfix pat s = true := by
  cases s with
  | nil => exact h
  | cons c r => simp [hasInfix, h]

/-- A string without a newline cannot contain the fence `"\n---"`. -/
theorem no_newline_free (s : Str) (h : '\n' ∉ s) :
    hasInfix (s2l "\n---") s = false := by
  cases hh : hasInfix (s2l "\n---") s with
  | false => rfl
  | true =>
    obtain ⟨x, y, rfl⟩ := (hasInfix_iff _ _).mp hh
    exact absurd (List.mem_append.mpr (Or.inl
      (List.mem_append.mpr (Or.inr (by decide))))) h

/-- Freedom from the fence is inherited by substrings. -/
theorem free_of_sub (pat t u v s : Str) (hs : s = u ++ t ++ v)
    (h : hasInfix pat s = false) : hasInfix pat t = false := by
  cases ht : hasInfix pat t with
  | false => rfl
  | true => rw [hs, hasInfix_sub pat t u v ht] at h; cases h

theorem splitOnFirst_sound (pat : Str) : ∀ s a b : Str,
    splitOnFirst pat s = some (a, b) → s = a ++ pat ++ b := by
  intro s
  induction s with
  | nil =>
    intro a b h
    simp only [splitOnFirst] at h
    split at h
    · rename_i hp
      simp only [Option.some.injEq, Prod.mk.injEq] at h
      obtain ⟨rfl, rfl⟩ := h
      obtain ⟨t, ht⟩ := (isPrefixOf_iff _ _).mp hp
      obtain ⟨hp0, ht0⟩ := List.append_eq_nil.mp ht.symm
      simp [hp0]
    · cases h
  | cons c r ih =>
    intro a b h
    simp only [splitOnFirst] at h
    split at h
    · rename_i hp
      simp only [Option.some.injEq, Prod.mk.injEq] at h
      obtain ⟨rfl, rfl⟩ := h
      obtain ⟨t, ht⟩ := (isPrefixOf_iff _ _).mp hp
      rw [List.nil_append, ht, List.drop_left]
    · cases ho : splitOnFirst pat r with
      | none => rw [ho] at h; cases h
      | some p =>
        obtain ⟨p1, p2⟩ := p
        rw [ho] at h
        simp only [Option.map_some', Option.some.injEq, Prod.mk.injEq] at h
        obtain ⟨rfl, rfl⟩ := h
        simp [ih p1 p2 ho, List.append_assoc]

theorem splitOnFirst_none_iff (pat : Str) : ∀ s : Str,
    splitOnFirst pat s = none ↔ hasInfix pat s = false := by
  intro s
  induction s with
  | nil =>
    simp only [splitOnFirst, hasInfix]
    split
    · rename_i hp; simp [hp]
    · rename_i hp
      have hp2 : List.isPrefixOf pat ([] : Str) = false := by
        cases hb : List.isPrefixOf pat ([] : Str)
        · rfl
        · exact absurd hb hp
      simp [hp2]
  | cons c r ih =>
    simp only [splitOnFirst, hasInfix]
    split
    · rename_i hp; simp [hp]
    · rename_i hp
      have hp2 : List.isPrefixOf pat (c :: r) = false := by
        cases hb : List.isPrefixOf pat (c :: r)
        · rfl
        · exact absurd hb hp
      simp [Option.map_eq_none', ih, hp2]

/-- The part before the first occurrence contains no occurrence. -/
theorem splitOnFirst_free (pat : Str) (hpat : pat ≠ []) : ∀ s a b : Str,
    splitOnFirst pat s = some (a, b) → hasInfix pat a = false := by
  intro s
  induction s with
  | nil =>
    intro a b h
    simp only [splitOnFirst] at h
    split at h
    · simp only [Option.some.injEq, Prod.mk.injEq] at h
      obtain ⟨rfl, rfl⟩ := h
      cases pat with
      | nil => exact absurd rfl hpat
      | cons p ps => rfl
    · cases h
  | cons c r ih =>
    intro a b h
    simp only [splitOnFirst] at h
    split at h
    · simp only [Option.some.injEq, Prod.mk.injEq] at h
      obtain ⟨rfl, rfl⟩ := h
      cases pat with
      | nil => exact absurd rfl hpat
      | cons p ps => rfl
    · rename_i hp
      cases ho : splitOnFirst pat r with
      | none => rw [ho] at h; cases h
      | some p =>
        obtain ⟨p1, p2⟩ := p
        rw [ho] at h
        simp only [Option.map_some', Option.some.injEq, Prod.mk.injEq] at h
        obtain ⟨rfl, rfl⟩ := h
        have hr := splitOnFirst_sound pat r p1 p2 ho
        simp only [hasInfix, Bool.or_eq_false_iff]
        refine ⟨?_, ih p1 p2 ho⟩
        cases hcp : pat.isPrefixOf (c :: p1) with
        | false => rfl
        | true =>
          obtain ⟨t, ht⟩ := (isPrefixOf_iff _ _).mp hcp
          have : pat.isPrefixOf (c :: r) = true := by
            refine (isPrefixOf_iff _ _).mpr ⟨t ++ pat ++ p2, ?_⟩
            rw [hr,
              show c :: (p1 ++ pat ++ p2) = (c :: p1) ++ (pat ++ p2) by
                simp [List.append_assoc],
              ht]
            simp [List.append_assoc]
          exact absurd this hp

/-! ## Helper lemmas specific to the fence `"\n---"` -/

/-- Appending after a fence-free string whose continuation starts with a
newline: the first fence occurrence lies beyond `x`, so `splitOnFirst`
distributes. -/
theorem splitOnFirst_nl_append : ∀ x w : Str,
    hasInfix (s2l "\n---") x = false →
    splitOnFirst (s2l "\n---") (x ++ '\n' :: w) =
      (splitOnFirst (s2l "\n---") ('\n' :: w)).map
        (fun p => (x ++ p.1, p.2))
  | [], w, _ => by
    cases ho : splitOnFirst (s2l "\n---") ('\n' :: w) with
    | none => simp [ho]
    | some p => simp [ho]
  | c :: x', w, hx => by
    have hx2 : hasInfix (s2l "\n---") x' = false := by
      have := hx
      simp only [hasInfix, Bool.or_eq_false_iff] at this
      exact this.2
    have hnp : (s2l "\n---").isPrefixOf (c :: (x' ++ '\n' :: w)) = false := by
      cases hcp : (s2l "\n---").isPrefixOf (c :: (x' ++ '\n' :: w)) with
      | false => rfl
      | true =>
        exfalso
        obtain ⟨t, ht⟩ := (isPrefixOf_iff _ _).mp hcp
        rcases x' with _ | ⟨d, _ | ⟨e, _ | ⟨f, x''⟩⟩⟩
        · simp only [List.nil_append] at ht
          injection ht with h1 h2
          injection h2 with h3 _
          exact absurd h3 (by decide)
        · simp only [List.cons_append, List.nil_append] at ht
          injection ht with h1 h2
          injection h2 with h3 h4
          injection h4 with h5 _
          exact absurd h5 (by decide)
        · simp only [List.cons_append, List.nil_append] at ht
          injection ht with h1 h2
          injection h2 with h3 h4
          injection h4 with h5 h6
          injection h6 with h7 _
          exact absurd h7 (by decide)
        · simp only [List.cons_append] at ht
          injection ht with h1 h2
          injection h2 with h3 h4
          injection h4 with h5 h6
          injection h6 with h7 h8
          subst h1; subst h3; subst h5; subst h7
          have : hasInfix (s2l "\n---") ('\n' :: '-' :: '-' :: '-' :: x'')
              = true :=
            hasInfix_of_prefix _ _ ((isPrefixOf_iff _ _).mpr ⟨x'', rfl⟩)
          rw [this] at hx
          cases hx
    show splitOnFirst (s2l "\n---") (c :: (x' ++ '\n' :: w)) = _
    rw [splitOnFirst, if_neg (by simp [hnp]),
      splitOnFirst_nl_append x' w hx2]
    cases splitOnFirst (s2l "\n---") ('\n' :: w) <;> simp

/-- Exact split: a fence placed after a fence-free string is the first
occurrence. -/
theorem splitOnFirst_exact (x y : Str)
    (hx : hasInfix (s2l "\n---") x = false) :
    splitOnFirst (s2l "\n---") (x ++ s2l "\n---" ++ y) = some (x, y) := by
  have h1 : x ++ s2l "\n---" ++ y = x ++ '\n' :: (s2l "---" ++ y) := by
    simp [s2l]
  rw [h1, splitOnFirst_nl_append x _ hx]
  have h2 : splitOnFirst (s2l "\n---") ('\n' :: (s2l "---" ++ y)) =
      some ([], y) := by
    have h3 : ('\n' :: (s2l "---" ++ y) : Str) = '\n' :: '-' :: '-' :: '-' :: y := by
      simp [s2l]
    rw [h3]
    simp only [splitOnFirst]
    rw [if_pos (by simp [List.isPrefixOf, s2l])]
    simp [s2l]
  rw [h2]
  simp

/-- Concatenating two fence-free strings stays fence-free when the second
does not start with `'-'` (a spanning occurrence would need the characters
after the initial `'\n'` of the fence, all `'-'`, to begin the second
string). -/
theorem free_append_head : ∀ x y : Str,
    hasInfix (s2l "\n---") x = false →
    hasInfix (s2l "\n---") y = false →
    (∀ c : Char, y.head? = some c → ¬(c = '-')) →
    hasInfix (s2l "\n---") (x ++ y) = false
  | [], y, _, hy, _ => by simpa using hy
  | c :: x', y, hx, hy, hh => by
    have hx0 : (s2l "\n---").isPrefixOf (c :: x') = false ∧
        hasInfix (s2l "\n---") x' = false := by
      simpa [hasInfix, Bool.or_eq_false_iff] using hx
    have hnp : (s2l "\n---").isPrefixOf (c :: (x' ++ y)) = false := by
      cases hcp : (s2l "\n---").isPrefixOf (c :: (x' ++ y)) with
      | false => rfl
      | true =>
        exfalso
        obtain ⟨t, ht⟩ := (isPrefixOf_iff _ _).mp hcp
        rcases x' with _ | ⟨d, _ | ⟨e, _ | ⟨f, x''⟩⟩⟩
        · simp only [List.nil_append] at ht
          injection ht with h1 h2
          exact hh '-' (by rw [h2]; rfl) rfl
        · simp only [List.cons_append, List.nil_append] at ht
          injection ht with h1 h2
          injection h2 with h3 h4
          exact hh '-' (by rw [h4]; rfl) rfl
        · simp only [List.cons_append, List.nil_append] at ht
          injection ht with h1 h2
          injection h2 with h3 h4
          injection h4 with h5 h6
          exact hh '-' (by rw [h6]; rfl) rfl
        · simp only [List.cons_append] at ht
          injection ht with h1 h2
          injection h2 with h3 h4
          injection h4 with h5 h6
          injection h6 with h7 h8
          subst h1; subst h3; subst h5; subst h7
          have : hasInfix (s2l "\n---") ('\n' :: '-' :: '-' :: '-' :: x'')
              = true :=
            hasInfix_of_prefix _ _ ((isPrefixOf_iff _ _).mpr ⟨x'', rfl⟩)
          rw [this] at hx
          cases hx
    have : hasInfix (s2l "\n---") (x' ++ y) = false :=
      free_append_head x' y hx0.2 hy hh
    simp [hasInfix, hnp, this]

/-- Concatenating two fence-free strings stays fence-free when the first
does not end with `'\n'` or `'-'` (every proper prefix of the fence ends
with one of those two characters). -/
theorem free_append_last : ∀ x y : Str,
    hasInfix (s2l "\n---") x = false →
    hasInfix (s2l "\n---") y = false →
    (∀ c : Char, x.getLast? = some c → ¬(c = '\n') ∧ ¬(c = '-')) →
    hasInfix (s2l "\n---") (x ++ y) = false
  | [], y, _, hy, _ => by simpa using hy
  | c :: x', y, hx, hy, hl => by
    have hx0 : (s2l "\n---").isPrefixOf (c :: x') = false ∧
        hasInfix (s2l "\n---") x' = false := by
      simpa [hasInfix, Bool.or_eq_false_iff] using hx
    have hnp : (s2l "\n---").isPrefixOf (c :: (x' ++ y)) = false := by
      cases hcp : (s2l "\n---").isPrefixOf (c :: (x' ++ y)) with
      | false => rfl
      | true =>
        exfalso
        obtain ⟨t, ht⟩ := (isPrefixOf_iff _ _).mp hcp
        rcases x' with _ | ⟨d, _ | ⟨e, _ | ⟨f, x''⟩⟩⟩
        · simp only [List.nil_append] at ht
          injection ht with h1 h2
          exact (hl c rfl).1 h1
        · simp only [List.cons_append, List.nil_append] at ht
          injection ht with h1 h2
          injection h2 with h3 h4
          exact (hl d rfl).2 h3
        · simp only [List.cons_append, List.nil_append] at ht
          injection ht with h1 h2
          injection h2 with h3 h4
          injection h4 with h5 h6
          exact (hl e rfl).2 h5
        · simp only [List.cons_append] at ht
          injection ht with h1 h2
          injection h2 with h3 h4
          injection h4 with h5 h6
          injection h6 with h7 h8
          subst h1; subst h3; subst h5; subst h7
          have : hasInfix (s2l "\n---") ('\n' :: '-' :: '-' :: '-' :: x'')
              = true :=
            hasInfix_of_prefix _ _ ((isPrefixOf_iff _ _).mpr ⟨x'', rfl⟩)
          rw [this] at hx
          cases hx
    have hl' : ∀ d : Char, x'.getLast? = some d →
        ¬(d = '\n') ∧ ¬(d = '-') := by
      intro d hd
      cases x' with
      | nil => cases hd
      | cons p ps => exact hl d (by rw [← hd]; rfl)
    have : hasInfix (s2l "\n---") (x' ++ y) = false :=
      free_append_last x' y hx0.2 hy hl'
    simp [hasInfix, hnp, this]

/-- Each rendered author entry is fence-free when the author name has no
newline. -/
theorem authorLine_free (a : Str) (ha : '\n' ∉ a) :
    hasInfix (s2l "\n---") (authorLine a) = false := by
  have h1 : hasInfix (s2l "\n---") (s2l "  - \"[[" ++ a) = false :=
    free_append_last _ _ (by decide) (no_newline_free a ha)
      (by intro c hc; cases hc; exact ⟨by decide, by decide⟩)
  have h2 : hasInfix (s2l "\n---") ((s2l "  - \"[[" ++ a) ++ s2l "]]\"")
      = false :=
    free_append_head _ _ h1 (by decide)
      (by intro c hc; cases hc; exact (by decide))
  simpa [authorLine, List.append_assoc] using h2

/-- If a string does not start with `'-'`, the dashes `"---"` are not a
prefix of it. -/
theorem dashes_not_first (z : Str) (c : Char) (hz : z.head? = some c)
    (hc : ¬(c = '-')) : (s2l "---").isPrefixOf z = false := by
  cases z with
  | nil => cases hz
  | cons a zs =>
    have h : a = c := by injection hz
    cases hcp : (s2l "---").isPrefixOf (a :: zs) with
    | false => rfl
    | true =>
      exfalso
      obtain ⟨t, ht⟩ := (isPrefixOf_iff _ _).mp hcp
      rw [show (s2l "---" ++ t : Str) = '-' :: (s2l "--" ++ t) from rfl] at ht
      injection ht with h1 _
      exact hc (h ▸ h1)

/-- Prepending a newline to a fence-free string that does not continue
with `"---"` stays fence-free. -/
theorem nl_cons_free (z : Str)
    (hz : hasInfix (s2l "\n---") z = false)
    (h3 : (s2l "---").isPrefixOf z = false) :
    hasInfix (s2l "\n---") ('\n' :: z) = false := by
  simp only [hasInfix, Bool.or_eq_false_iff]
  refine ⟨?_, hz⟩
  cases hcp : (s2l "\n---").isPrefixOf ('\n' :: z) with
  | false => rfl
  | true =>
    exfalso
    obtain ⟨t, ht⟩ := (isPrefixOf_iff _ _).mp hcp
    rw [show (s2l "\n---" ++ t : Str) = '\n' :: ('-' :: '-' :: '-' :: t)
      from rfl] at ht
    injection ht with h1 h2
    have htrue : (s2l "---").isPrefixOf z = true :=
      (isPrefixOf_iff _ _).mpr ⟨t, by rw [h2]; rfl⟩
    rw [htrue] at h3
    cases h3

/-- The rendered author block is fence-free and starts with a space, for
authors without newlines. -/
theorem joinNl_authorLines_free : ∀ as : List Str,
    (∀ a ∈ as, '\n' ∉ a) →
    hasInfix (s2l "\n---") (joinNl (as.map authorLine)) = false ∧
    (∀ c : Char, (joinNl (as.map authorLine)).head? = some c → c = ' ')
  | [], _ => by
    constructor
    · decide
    · intro c hc; cases hc
  | [a], ha => by
    refine ⟨authorLine_free a (ha a (by simp)), ?_⟩
    intro c hc
    rw [show (joinNl ([a].map authorLine)) = authorLine a from rfl,
      show (authorLine a : Str) = ' ' :: (s2l " - \"[[" ++ a ++ s2l "]]\"")
        from by simp [authorLine, s2l]] at hc
    injection hc with h
    exact h.symm
  | a :: b :: r, ha => by
    have ih := joinNl_authorLines_free (b :: r)
      (fun x hx => ha x (List.mem_cons_of_mem a hx))
    have hline := authorLine_free a (ha a (by simp))
    have hzhead : ∀ c : Char,
        (joinNl ((b :: r).map authorLine)).head? = some c → ¬(c = '-') := by
      intro c hc
      rw [ih.2 c hc]
      decide
    have hhead : (joinNl ((b :: r).map authorLine)).head? = some ' ' := by
      cases r with
      | nil =>
        rw [show joinNl ((b :: []).map authorLine) = authorLine b from rfl,
          show (authorLine b : Str) =
            ' ' :: (s2l " - \"[[" ++ b ++ s2l "]]\"")
            from by simp [authorLine, s2l]]
        rfl
      | cons x xs =>
        rw [show joinNl ((b :: x :: xs).map authorLine) =
          authorLine b ++ '\n' :: joinNl ((x :: xs).map authorLine) from rfl,
          show (authorLine b : Str) =
            ' ' :: (s2l " - \"[[" ++ b ++ s2l "]]\"")
            from by simp [authorLine, s2l]]
        rfl
    have hz : hasInfix (s2l "\n---")
        ('\n' :: joinNl ((b :: r).map authorLine)) = false :=
      nl_cons_free _ ih.1
        (dashes_not_first _ ' ' hhead (by decide))
    have hfree : hasInfix (s2l "\n---")
        (authorLine a ++ '\n' :: joinNl ((b :: r).map authorLine)) = false :=
      free_append_head _ _ hline hz (by intro c hc; cases hc; decide)
    constructor
    · exact hfree
    · intro c hc
      rw [show joinNl ((a :: b :: r).map authorLine) =
        authorLine a ++ '\n' :: joinNl ((b :: r).map authorLine) from rfl,
        show (authorLine a ++ '\n' :: joinNl ((b :: r).map authorLine) : Str)
          = ' ' :: (s2l " - \"[[" ++ a ++ s2l "]]\"" ++
            '\n' :: joinNl ((b :: r).map authorLine))
          from by simp [authorLine, s2l]] at hc
      injection hc with h
      exact h.symm

/-- Transport a concrete head to the "does not start with dash" side
condition of `free_append_head`. -/
theorem head_ne_dash_of_eq (y : Str) (c0 : Char) (hy : y.head? = some c0)
    (h0 : ¬(c0 = '-')) : ∀ c : Char, y.head? = some c → ¬(c = '-') := by
  intro c hc
  rw [hy] at hc
  injection hc with h
  rw [← h]
  exact h0

/-- Transport a concrete last character to the side condition of
`free_append_last`. -/
theorem last_ok_of_eq (x : Str) (c0 : Char) (hx : x.getLast? = some c0)
    (h1 : ¬(c0 = '\n')) (h2 : ¬(c0 = '-')) :
    ∀ c : Char, x.getLast? = some c → ¬(c = '\n') ∧ ¬(c = '-') := by
  intro c hc
  rw [hx] at hc
  injection hc with h
  rw [← h]
  exact ⟨h1, h2⟩

/-- The `new_fields` block is fence-free when no metadata field contains a
newline. -/
theorem newFields_free (m : MarkdownMetadata)
    (ht : '\n' ∉ m.title) (ha : ∀ a ∈ m.authors, '\n' ∉ a)
    (hb : '\n' ∉ m.book) (hd : '\n' ∉ m.publication_date) :
    hasInfix (s2l "\n---") (newFields m) = false := by
  obtain ⟨hyaml, hyhead⟩ := joinNl_authorLines_free m.authors ha
  have w1 : hasInfix (s2l "\n---") (s2l "Title: \"" ++ m.title) = false :=
    free_append_last _ _ (by decide) (no_newline_free _ ht)
      (last_ok_of_eq _ '"' rfl (by decide) (by decide))
  have w2 : hasInfix (s2l "\n---")
      (s2l "Title: \"" ++ m.title ++ s2l "\"\nAuthors:\n") = false :=
    free_append_head _ _ w1 (by decide)
      (head_ne_dash_of_eq _ '"' rfl (by decide))
  have w3 : hasInfix (s2l "\n---")
      (s2l "Title: \"" ++ m.title ++ s2l "\"\nAuthors:\n" ++
        joinNl (m.authors.map authorLine)) = false :=
    free_append_head _ _ w2 hyaml
      (fun c hc => by rw [hyhead c hc]; decide)
  have w4 : hasInfix (s2l "\n---")
      (s2l "Title: \"" ++ m.title ++ s2l "\"\nAuthors:\n" ++
        joinNl (m.authors.map authorLine) ++ s2l "\nBook: \"[[") = false :=
    free_append_head _ _ w3 (by decide)
      (head_ne_dash_of_eq _ '\n' rfl (by decide))
  have hw4last : (s2l "Title: \"" ++ m.title ++ s2l "\"\nAuthors:\n" ++
      joinNl (m.authors.map authorLine) ++ s2l "\nBook: \"[[").getLast? =
      some '[' := by
    rw [List.getLast?_append]
    rfl
  have w5 : hasInfix (s2l "\n---")
      (s2l "Title: \"" ++ m.title ++ s2l "\"\nAuthors:\n" ++
        joinNl (m.authors.map authorLine) ++ s2l "\nBook: \"[[" ++ m.book)
      = false :=
    free_append_last _ _ w4 (no_newline_free _ hb)
      (last_ok_of_eq _ '[' hw4last (by decide) (by decide))
  have w6 : hasInfix (s2l "\n---")
      (s2l "Title: \"" ++ m.title ++ s2l "\"\nAuthors:\n" ++
        joinNl (m.authors.map authorLine) ++ s2l "\nBook: \"[[" ++ m.book ++
        s2l "]]\"\nDate: \"") = false :=
    free_append_head _ _ w5 (by decide)
      (head_ne_dash_of_eq _ ']' rfl (by decide))
  have hw6last : (s2l "Title: \"" ++ m.title ++ s2l "\"\nAuthors:\n" ++
      joinNl (m.authors.map authorLine) ++ s2l "\nBook: \"[[" ++ m.book ++
      s2l "]]\"\nDate: \"").getLast? = some '"' := by
    rw [List.getLast?_append]
    rfl
  have w7 : hasInfix (s2l "\n---")
      (s2l "Title: \"" ++ m.title ++ s2l "\"\nAuthors:\n" ++
        joinNl (m.authors.map authorLine) ++ s2l "\nBook: \"[[" ++ m.book ++
        s2l "]]\"\nDate: \"" ++ m.publication_date) = false :=
    free_append_last _ _ w6 (no_newline_free _ hd)
      (last_ok_of_eq _ '"' hw6last (by decide) (by decide))
  have w8 : hasInfix (s2l "\n---")
      (s2l "Title: \"" ++ m.title ++ s2l "\"\nAuthors:\n" ++
        joinNl (m.authors.map authorLine) ++ s2l "\nBook: \"[[" ++ m.book ++
        s2l "]]\"\nDate: \"" ++ m.publication_date ++ s2l "\"") = false :=
    free_append_head _ _ w7 (by decide)
      (head_ne_dash_of_eq _ '"' rfl (by decide))
  exact w8

/-! ## `pyStrip` is a substring operation -/

theorem dropWhile_decomp (p : Char → Bool) : ∀ l : Str,
    ∃ u, l = u ++ l.dropWhile p
  | [] => ⟨[], rfl⟩
  | c :: r => by
    cases hc : p c with
    | true =>
      obtain ⟨u, hu⟩ := dropWhile_decomp p r
      exact ⟨c :: u, by rw [List.dropWhile_cons_of_pos hc, List.cons_append,
        ← hu]⟩
    | false =>
      exact ⟨[], by rw [List.dropWhile_cons_of_neg (by simp [hc]),
        List.nil_append]⟩

theorem rstripP_decomp (s : Str) : ∃ u, s = rstripP s ++ u := by
  obtain ⟨u, hu⟩ := dropWhile_decomp isPySpace s.reverse
  refine ⟨u.reverse, ?_⟩
  conv_lhs => rw [← List.reverse_reverse s, hu]
  rw [List.reverse_append, rstripP]

theorem pyStrip_decomp (s : Str) : ∃ u v, s = u ++ pyStrip s ++ v := by
  obtain ⟨u, hu⟩ := dropWhile_decomp isPySpace s
  obtain ⟨v, hv⟩ := rstripP_decomp (s.dropWhile isPySpace)
  refine ⟨u, v, ?_⟩
  rw [List.append_assoc, pyStrip, ← hv, ← hu]

theorem pyStrip_free (s : Str)
    (h : hasInfix (s2l "\n---") s = false) :
    hasInfix (s2l "\n---") (pyStrip s) = false := by
  obtain ⟨u, v, huv⟩ := pyStrip_decomp s
  exact free_of_sub _ _ u v s huv h

/-! ## The front matter produced by one injection -/

/-- After one injection, the re-parsed front matter is the `new_fields`
block followed by a (possibly empty, newline-initial) tail, and is
fence-free. -/
theorem frontmatterMatch_inject (doc : Str) (m : MarkdownMetadata)
    (hfree : hasInfix (s2l "\n---") (newFields m) = false) :
    ∃ tl r, frontmatterMatch (add_title_to_frontmatter doc m) =
        some (newFields m ++ tl, r) ∧
      (tl = [] ∨ ∃ t, tl = '\n' :: t) ∧
      hasInfix (s2l "\n---") (newFields m ++ tl) = false := by
  cases hm : frontmatterMatch doc with
  | none =>
    refine ⟨[], '\n' :: doc, ?_, Or.inl rfl, by simpa using hfree⟩
    simp only [add_title_to_frontmatter, hm]
    have hshape : (s2l "---\n" ++ newFields m ++ s2l "\n---\n" ++ doc : Str)
        = s2l "---\n" ++ (newFields m ++ ('\n' :: (s2l "---\n" ++ doc))) := by
      simp only [List.append_assoc]
      rw [show (s2l "\n---\n" ++ doc : Str) = '\n' :: (s2l "---\n" ++ doc)
        from rfl]
    rw [hshape, frontmatterMatch,
      if_pos (isPrefixOf_append_self (s2l "---\n") _),
      List.drop_left' (by rfl),
      splitOnFirst_nl_append _ _ hfree]
    have hbase : splitOnFirst (s2l "\n---") ('\n' :: (s2l "---\n" ++ doc)) =
        some ([], '\n' :: doc) := by
      rw [show ('\n' :: (s2l "---\n" ++ doc) : Str) =
        '\n' :: '-' :: '-' :: '-' :: ('\n' :: doc) from by simp [s2l]]
      simp only [splitOnFirst]
      rw [if_pos (by simp [List.isPrefixOf, s2l])]
      simp [s2l]
    rw [hbase]
    simp
  | some p =>
    obtain ⟨g1, rest⟩ := p
    have hum : splitOnFirst (s2l "\n---") (doc.drop 4) = some (g1, rest) := by
      rw [frontmatterMatch] at hm
      split at hm
      · exact hm
      · cases hm
    have hg1 : hasInfix (s2l "\n---") g1 = false :=
      splitOnFirst_free _ (by decide) _ _ _ hum
    have hstrip : hasInfix (s2l "\n---") (pyStrip g1) = false :=
      pyStrip_free g1 hg1
    have hinner : ('\n' :: (pyStrip g1 ++ (s2l "\n---" ++ rest)) : Str) =
        ('\n' :: pyStrip g1) ++ s2l "\n---" ++ rest := by
      simp [List.append_assoc]
    have hsome : ∃ q, splitOnFirst (s2l "\n---")
        ('\n' :: (pyStrip g1 ++ (s2l "\n---" ++ rest))) = some q := by
      cases hq : splitOnFirst (s2l "\n---")
          ('\n' :: (pyStrip g1 ++ (s2l "\n---" ++ rest))) with
      | none =>
        exfalso
        have := (splitOnFirst_none_iff _ _).mp hq
        rw [hinner, hasInfix_of_parts] at this
        cases this
      | some q => exact ⟨q, rfl⟩
    obtain ⟨⟨u, v⟩, hq⟩ := hsome
    have husound := splitOnFirst_sound _ _ _ _ hq
    have hushape : u = [] ∨ ∃ t, u = '\n' :: t := by
      cases u with
      | nil => exact Or.inl rfl
      | cons c u' =>
        rw [List.cons_append, List.cons_append] at husound
        injection husound with h1 _
        exact Or.inr ⟨u', by rw [h1]⟩
    have houter : frontmatterMatch (add_title_to_frontmatter doc m) =
        some (newFields m ++ u, v) := by
      simp only [add_title_to_frontmatter, hm]
      have hshape : (s2l "---\n" ++ newFields m ++ s2l "\n" ++ pyStrip g1 ++
          s2l "\n---" ++ rest : Str) =
          s2l "---\n" ++ (newFields m ++
            ('\n' :: (pyStrip g1 ++ (s2l "\n---" ++ rest)))) := by
        simp only [List.append_assoc]
        rw [show (s2l "\n" ++ (pyStrip g1 ++ (s2l "\n---" ++ rest)) : Str) =
          '\n' :: (pyStrip g1 ++ (s2l "\n---" ++ rest)) from rfl]
      rw [hshape, frontmatterMatch,
        if_pos (isPrefixOf_append_self (s2l "---\n") _),
        List.drop_left' (by rfl),
        splitOnFirst_nl_append _ _ hfree, hq]
      rfl
    have hofree : hasInfix (s2l "\n---") (newFields m ++ u) = false := by
      have hdrop : ((s2l "---\n" ++ (newFields m ++
          ('\n' :: (pyStrip g1 ++ (s2l "\n---" ++ rest))))) : Str).drop 4 =
          newFields m ++ ('\n' :: (pyStrip g1 ++ (s2l "\n---" ++ rest))) :=
        List.drop_left' (by rfl)
      have := splitOnFirst_nl_append (newFields m)
        (pyStrip g1 ++ (s2l "\n---" ++ rest)) hfree
      rw [hq] at this
      exact splitOnFirst_free _ (by decide) _ _ _ this
    exact ⟨u, v, houter, hushape, hofree⟩

/-! ## Computing the validator's field searches on the injected block -/

theorem untilQuote_exact : ∀ (u w : Str), '"' ∉ u → '\n' ∉ u →
    untilQuote (u ++ '"' :: w) = some u
  | [], w, _, _ => by simp [untilQuote]
  | c :: u', w, h1, h2 => by
    have hc1 : ¬(c = '"') := fun h => h1 (by simp [h])
    have hc2 : ¬(c = '\n') := fun h => h2 (by simp [h])
    have hr := untilQuote_exact u' w (fun h => h1 (List.mem_cons_of_mem _ h))
      (fun h => h2 (List.mem_cons_of_mem _ h))
    simp only [List.cons_append, untilQuote]
    rw [if_neg (by simp [hc1]), if_neg (by simp [hc2])]
    simp [hr]

theorem matchQuoted_exact (u w : Str) (h0 : u ≠ []) (h1 : '"' ∉ u)
    (h2 : '\n' ∉ u) : matchQuoted (u ++ '"' :: w) = some u := by
  cases u with
  | nil => exact absurd rfl h0
  | cons c u' =>
    have hc2 : ¬(c = '\n') := fun h => h2 (by simp [h])
    have hr := untilQuote_exact u' w (fun h => h1 (List.mem_cons_of_mem _ h))
      (fun h => h2 (List.mem_cons_of_mem _ h))
    simp only [List.cons_append, matchQuoted]
    rw [if_neg (by simp [hc2])]
    simp [hr]

theorem mlSearch_head (p : Str → Option α) (s : Str) (v : α)
    (h : p s = some v) : mlSearch p s = some v := by
  simp [mlSearch, h]

theorem mlSearchAux_isSome (p : Str → Option α) : ∀ (x y : Str) (v : α),
    p y = some v → (mlSearchAux p (x ++ '\n' :: y)).isSome = true
  | [], y, v, h => by simp [mlSearchAux, h]
  | c :: x', y, v, h => by
    simp only [List.cons_append, mlSearchAux]
    split
    · cases hp : p (x' ++ '\n' :: y) with
      | some w => simp
      | none => simpa using mlSearchAux_isSome p x' y v h
    · exact mlSearchAux_isSome p x' y v h

theorem mlSearch_isSome_of (p : Str → Option α) (x y : Str) (v : α)
    (h : p y = some v) : (mlSearch p (x ++ '\n' :: y)).isSome = true := by
  cases hp : p (x ++ '\n' :: y) with
  | some w => simp [mlSearch, hp]
  | none => simp [mlSearch, hp, mlSearchAux_isSome p x y v h]

/-- The author line decomposes around the expected wiki-link substring. -/
theorem authorLine_decomp (a : Str) :
    authorLine a = s2l "  - " ++ (s2l "\"[[" ++ a ++ s2l "]]\"") := by
  simp only [authorLine, List.append_assoc]
  rfl

/-- Every author of the list has its wiki-link substring inside the
rendered block. -/
theorem joinNl_mem_decomp : ∀ (as : List Str) (a : Str), a ∈ as →
    ∃ u v, joinNl (as.map authorLine) =
      u ++ (s2l "\"[[" ++ a ++ s2l "]]\"") ++ v
  | [], a, ha => absurd ha (List.not_mem_nil a)
  | b :: bs, a, ha => by
    rcases List.mem_cons.mp ha with rfl | hmem
    · cases bs with
      | nil =>
        refine ⟨s2l "  - ", [], ?_⟩
        rw [show joinNl ([a].map authorLine) = authorLine a from rfl,
          authorLine_decomp, List.append_nil]
      | cons b' bs' =>
        refine ⟨s2l "  - ",
          '\n' :: joinNl ((b' :: bs').map authorLine), ?_⟩
        rw [show joinNl ((a :: b' :: bs').map authorLine) =
          authorLine a ++ '\n' :: joinNl ((b' :: bs').map authorLine)
          from rfl, authorLine_decomp, List.append_assoc]
    · cases bs with
      | nil => cases hmem
      | cons b' bs' =>
        obtain ⟨u, v, hj⟩ := joinNl_mem_decomp (b' :: bs') a hmem
        refine ⟨authorLine b ++ '\n' :: u, v, ?_⟩
        rw [show joinNl ((b :: b' :: bs').map authorLine) =
          authorLine b ++ '\n' :: joinNl ((b' :: bs').map authorLine)
          from rfl, hj]
        simp [List.append_assoc]

/-! ## C1: validation succeeds on well-formed metadata -/

/-- C1 (amended): for metadata whose title and date are non-empty and free
of double quotes and newlines, and whose authors and book are free of
newlines, validating the result of a single injection against the same
metadata reports `is_valid = true`, for every input document. -/
theorem C1_validate_after_inject (doc : Str) (m : MarkdownMetadata)
    (ht0 : m.title ≠ []) (ht1 : '"' ∉ m.title) (ht2 : '\n' ∉ m.title)
    (ha : ∀ a ∈ m.authors, '\n' ∉ a) (hb : '\n' ∉ m.book)
    (hd0 : m.publication_date ≠ []) (hd1 : '"' ∉ m.publication_date)
    (hd2 : '\n' ∉ m.publication_date) :
    (validate_frontmatter (add_title_to_frontmatter doc m) m).is_valid
      = true := by
  obtain ⟨tl, r, hfm, htl, hfree⟩ := frontmatterMatch_inject doc m
    (newFields_free m ht2 ha hb hd2)
  have e1 : (newFields m ++ tl : Str) = s2l "Title:" ++
      (s2l " \"" ++ (m.title ++ ('"' :: (s2l "\nAuthors:\n" ++
        (joinNl (m.authors.map authorLine) ++ (s2l "\nBook: \"[[" ++
          (m.book ++ (s2l "]]\"\nDate: \"" ++
            (m.publication_date ++ ('"' :: tl)))))))))) := by
    simp only [newFields, List.append_assoc]
    rfl
  have hTitleQ : quotedFieldAt (s2l "Title:") (newFields m ++ tl) =
      some m.title := by
    rw [quotedFieldAt, if_pos ((isPrefixOf_iff _ _).mpr ⟨_, e1⟩), e1,
      List.drop_left' rfl]
    rw [show (s2l " \"" ++ (m.title ++ ('"' :: (s2l "\nAuthors:\n" ++
        (joinNl (m.authors.map authorLine) ++ (s2l "\nBook: \"[[" ++
          (m.book ++ (s2l "]]\"\nDate: \"" ++
            (m.publication_date ++ ('"' :: tl))))))))) : Str) =
      ' ' :: '"' :: (m.title ++ ('"' :: (s2l "\nAuthors:\n" ++
        (joinNl (m.authors.map authorLine) ++ (s2l "\nBook: \"[[" ++
          (m.book ++ (s2l "]]\"\nDate: \"" ++
            (m.publication_date ++ ('"' :: tl))))))))) from rfl]
    rw [List.dropWhile_cons_of_pos (by decide),
      List.dropWhile_cons_of_neg (by decide)]
    exact matchQuoted_exact m.title _ ht0 ht1 ht2
  have hTitle : mlSearch (quotedFieldAt (s2l "Title:"))
      (newFields m ++ tl) = some m.title :=
    mlSearch_head _ _ _ hTitleQ
  have e2 : (newFields m ++ tl : Str) =
      (s2l "Title: \"" ++ m.title ++ s2l "\"\n") ++ s2l "Authors:" ++
        ('\n' :: (joinNl (m.authors.map authorLine) ++
          (s2l "\nBook: \"[[" ++ (m.book ++ (s2l "]]\"\nDate: \"" ++
            (m.publication_date ++ (s2l "\"" ++ tl))))))) := by
    simp only [newFields, List.append_assoc]
    rfl
  have hAuthHeader : hasInfix (s2l "Authors:") (newFields m ++ tl) = true := by
    rw [e2]
    exact hasInfix_of_parts _ _ _
  have e3 : (newFields m ++ tl : Str) =
      (s2l "Title: \"" ++ m.title ++ s2l "\"\nAuthors:\n") ++
        joinNl (m.authors.map authorLine) ++
        (s2l "\nBook: \"[[" ++ (m.book ++ (s2l "]]\"\nDate: \"" ++
          (m.publication_date ++ (s2l "\"" ++ tl))))) := by
    simp only [newFields, List.append_assoc]
  have hAuth : ∀ a ∈ m.authors,
      hasInfix (s2l "\"[[" ++ a ++ s2l "]]\"") (newFields m ++ tl)
        = true := by
    intro a hmem
    obtain ⟨u, v, hj⟩ := joinNl_mem_decomp m.authors a hmem
    refine (hasInfix_iff _ _).mpr
      ⟨(s2l "Title: \"" ++ m.title ++ s2l "\"\nAuthors:\n") ++ u,
        v ++ (s2l "\nBook: \"[[" ++ (m.book ++ (s2l "]]\"\nDate: \"" ++
          (m.publication_date ++ (s2l "\"" ++ tl))))), ?_⟩
    rw [e3, hj]
    simp [List.append_assoc]
  have e4 : (newFields m ++ tl : Str) =
      (s2l "Title: \"" ++ m.title ++ s2l "\"\nAuthors:\n" ++
        joinNl (m.authors.map authorLine) ++ s2l "\n") ++
        (s2l "Book: \"[[" ++ m.book ++ s2l "]]\"") ++
        (s2l "\nDate: \"" ++ (m.publication_date ++ (s2l "\"" ++ tl))) := by
    simp only [newFields, List.append_assoc]
    rfl
  have hBook : hasInfix (s2l "Book: \"[[" ++ m.book ++ s2l "]]\"")
      (newFields m ++ tl) = true := by
    rw [e4]
    exact hasInfix_of_parts _ _ _
  have e5 : (newFields m ++ tl : Str) =
      (s2l "Title: \"" ++ m.title ++ s2l "\"\nAuthors:\n" ++
        joinNl (m.authors.map authorLine) ++ s2l "\nBook: \"[[" ++ m.book ++
        s2l "]]\"") ++
        '\n' :: (s2l "Date: \"" ++ (m.publication_date ++ ('"' :: tl))) := by
    simp only [newFields, List.append_assoc]
    rfl
  have hDateQ : quotedFieldAt (s2l "Date:")
      (s2l "Date: \"" ++ (m.publication_date ++ ('"' :: tl))) =
      some m.publication_date := by
    rw [quotedFieldAt,
      if_pos ((isPrefixOf_iff _ _).mpr ⟨s2l " \"" ++
        (m.publication_date ++ ('"' :: tl)), by rfl⟩),
      show ((s2l "Date: \"" ++ (m.publication_date ++ ('"' :: tl))).drop
        (s2l "Date:").length : Str) =
        ' ' :: '"' :: (m.publication_date ++ ('"' :: tl)) from rfl]
    rw [List.dropWhile_cons_of_pos (by decide),
      List.dropWhile_cons_of_neg (by decide)]
    exact matchQuoted_exact m.publication_date _ hd0 hd1 hd2
  have hDate : (mlSearch (quotedFieldAt (s2l "Date:"))
      (newFields m ++ tl)).isSome = true := by
    rw [e5]
    exact mlSearch_isSome_of _ _ _ _ hDateQ
  obtain ⟨d, hd⟩ := Option.isSome_iff_exists.mp hDate
  simp [validate_frontmatter, hfm, hTitle, hAuthHeader, hd,
    apply_ite Prod.fst]
  refine ⟨fun a hmem => ?_, fun hcontra => ?_⟩
  · simpa [List.append_assoc] using hAuth a hmem
  · have hB2 : hasInfix (s2l "Book: \"[[" ++ (m.book ++ s2l "]]\""))
        (newFields m ++ tl) = true := by
      simpa [List.append_assoc] using hBook
    rw [hB2] at hcontra
    cases hcontra

/-- C1 witness: the amended theorem applied to a concrete document and
metadata. -/
theorem C1_validate_after_inject_witness :
    (validate_frontmatter
      (add_title_to_frontmatter (s2l "body")
        ⟨s2l "T", [s2l "A"], s2l "B", s2l "D"⟩)
      ⟨s2l "T", [s2l "A"], s2l "B", s2l "D"⟩).is_valid = true :=
  C1_validate_after_inject (s2l "body") ⟨s2l "T", [s2l "A"], s2l "B", s2l "D"⟩
    (by decide) (by decide) (by decide) (by decide) (by decide) (by decide)
    (by decide) (by decide)

/-! ## C6: the injector's frame -/

/-- A successful front-matter match reconstructs the document. -/
theorem frontmatterMatch_sound (doc fm rest : Str)
    (h : frontmatterMatch doc = some (fm, rest)) :
    doc = s2l "---\n" ++ fm ++ s2l "\n---" ++ rest := by
  rw [frontmatterMatch] at h
  split at h
  · rename_i hp
    have hs := splitOnFirst_sound _ _ _ _ h
    obtain ⟨t, ht⟩ := (isPrefixOf_iff _ _).mp hp
    have hdrop : doc.drop 4 = t := by rw [ht]; exact List.drop_left' (by rfl)
    rw [hdrop] at hs
    rw [ht, hs]
    simp [List.append_assoc]
  · cases h

/-- C6 (amended): with no existing front matter, the new block is
prepended and the document follows unchanged; with existing front matter,
the document splits as `---\n<block>\n---<rest>`, and the output is the
same delimiter pair containing the new fields followed by the existing
block with its leading and trailing whitespace stripped (interior lines
verbatim), followed by the unchanged `<rest>`. -/
theorem C6_inject_frame (doc : Str) (m : MarkdownMetadata) :
    (frontmatterMatch doc = none →
      add_title_to_frontmatter doc m =
        s2l "---\n" ++ newFields m ++ s2l "\n---\n" ++ doc) ∧
    (∀ fm rest, frontmatterMatch doc = some (fm, rest) →
      doc = s2l "---\n" ++ fm ++ s2l "\n---" ++ rest ∧
      add_title_to_frontmatter doc m =
        s2l "---\n" ++ newFields m ++ s2l "\n" ++ pyStrip fm ++
          s2l "\n---" ++ rest) := by
  constructor
  · intro h
    simp [add_title_to_frontmatter, h]
  · intro fm rest h
    exact ⟨frontmatterMatch_sound doc fm rest h,
      by simp [add_title_to_frontmatter, h]⟩

/-- C6 witness: the amended theorem applied to a concrete document with
existing front matter. -/
theorem C6_inject_frame_witness :
    s2l "---\nk: v\n---\nbody" =
      s2l "---\n" ++ s2l "k: v" ++ s2l "\n---" ++ s2l "\nbody" ∧
    add_title_to_frontmatter (s2l "---\nk: v\n---\nbody")
        ⟨s2l "T", [s2l "A"], s2l "B", s2l "D"⟩ =
      s2l "---\n" ++ newFields ⟨s2l "T", [s2l "A"], s2l "B", s2l "D"⟩ ++
        s2l "\n" ++ pyStrip (s2l "k: v") ++ s2l "\n---" ++ s2l "\nbody" :=
  (C6_inject_frame (s2l "---\nk: v\n---\nbody")
    ⟨s2l "T", [s2l "A"], s2l "B", s2l "D"⟩).2 (s2l "k: v") (s2l "\nbody") rfl

/-! ## C5: two full key sets after a double injection -/

/-- A key occurrence right after an interior newline contributes to the
line-start count. -/
theorem countStartsAux_nl_ge (key : Str) : ∀ x y : Str,
    key.isPrefixOf y = true →
    1 + countStartsAux key y ≤ countStartsAux key (x ++ '\n' :: y)
  | [], y, h => by
    have e : countStartsAux key ('\n' :: y) =
        (if '\n' = '\n' ∧ key.isPrefixOf y then 1 else 0) +
          countStartsAux key y := rfl
    rw [List.nil_append, e, if_pos ⟨rfl, h⟩]
  | c :: x', y, h => by
    simp only [List.cons_append, countStartsAux]
    exact le_trans (countStartsAux_nl_ge key x' y h) (Nat.le_add_left _ _)

/-- Two interior occurrences give a line-start count of at least two. -/
theorem countStarts_two_of_decomp (key s x₁ y₁ x₂ y₂ : Str)
    (h1 : s = x₁ ++ '\n' :: y₁) (hp1 : key.isPrefixOf y₁ = true)
    (h2 : y₁ = x₂ ++ '\n' :: y₂) (hp2 : key.isPrefixOf y₂ = true) :
    2 ≤ countStarts key s := by
  have a1 : 1 + countStartsAux key y₁ ≤ countStartsAux key s := by
    rw [h1]; exact countStartsAux_nl_ge key x₁ y₁ hp1
  have a2 : 1 + countStartsAux key y₂ ≤ countStartsAux key y₁ := by
    rw [h2]; exact countStartsAux_nl_ge key x₂ y₂ hp2
  rw [countStarts]
  omega

/-- A key at position zero plus one interior occurrence also give at least
two. -/
theorem countStarts_two_of_prefix (key s x y : Str)
    (h0 : key.isPrefixOf s = true) (h1 : s = x ++ '\n' :: y)
    (hp : key.isPrefixOf y = true) : 2 ≤ countStarts key s := by
  have a1 : 1 + countStartsAux key y ≤ countStartsAux key s := by
    rw [h1]; exact countStartsAux_nl_ge key x y hp
  rw [countStarts, if_pos h0]
  omega

/-- `rstrip` distributes over an append. -/
theorem rstripP_append (x y : Str) :
    rstripP (x ++ y) = if rstripP y = [] then rstripP x else x ++ rstripP y := by
  rw [rstripP, List.reverse_append, List.dropWhile_append]
  by_cases h : List.dropWhile isPySpace y.reverse = []
  · rw [if_pos (by simp [h]), if_pos (by simp [rstripP, h]), rstripP]
  · have h1 : (List.dropWhile isPySpace y.reverse).isEmpty = false := by
      cases hb : List.dropWhile isPySpace y.reverse with
      | nil => exact absurd hb h
      | cons a l => rfl
    rw [if_neg (by simp [h1]),
      if_neg (by simp [rstripP, List.reverse_eq_nil_iff, h]),
      List.reverse_append, List.reverse_reverse, rstripP]

/-- `rstrip` keeps a string ending in a non-whitespace character. -/
theorem rstripP_nonspace_end (x : Str) (c : Char) (hc : isPySpace c = false) :
    rstripP (x ++ [c]) = x ++ [c] := by
  rw [rstripP, List.reverse_append,
    show (([c] : Str).reverse ++ x.reverse : Str) = c :: x.reverse from by
      simp,
    List.dropWhile_cons_of_neg (by simp [hc])]
  simp

/-- The `new_fields` block ends with its closing quote. -/
theorem newFields_snoc (m : MarkdownMetadata) :
    newFields m = (s2l "Title: \"" ++ m.title ++ s2l "\"\nAuthors:\n" ++
      joinNl (m.authors.map authorLine) ++ s2l "\nBook: \"[[" ++ m.book ++
      s2l "]]\"\nDate: \"" ++ m.publication_date) ++ ['"'] := by
  simp only [newFields, List.append_assoc]
  rfl

/-- Decomposition of the block at its `Title:` key. -/
theorem nf_at_title (m : MarkdownMetadata) (z : Str) :
    (newFields m ++ z : Str) = s2l "Title:" ++
      (s2l " \"" ++ (m.title ++ (s2l "\"\nAuthors:\n" ++
        (joinNl (m.authors.map authorLine) ++ (s2l "\nBook: \"[[" ++
          (m.book ++ (s2l "]]\"\nDate: \"" ++
            (m.publication_date ++ (s2l "\"" ++ z))))))))) := by
  simp only [newFields, List.append_assoc]
  rfl

/-- Decomposition of the block at the newline before its `Authors:` key. -/
theorem nf_at_authors (m : MarkdownMetadata) (z : Str) :
    (newFields m ++ z : Str) =
      (s2l "Title: \"" ++ m.title ++ s2l "\"") ++ '\n' ::
        (s2l "Authors:" ++ ((s2l "\n" ++ joinNl (m.authors.map authorLine) ++
          s2l "\nBook: \"[[" ++ m.book ++ s2l "]]\"\nDate: \"" ++
          m.publication_date ++ s2l "\"") ++ z)) := by
  simp only [newFields, List.append_assoc]
  rfl

/-- Decomposition of the block at the newline before its `Book:` key. -/
theorem nf_at_book (m : MarkdownMetadata) (z : Str) :
    (newFields m ++ z : Str) =
      (s2l "Title: \"" ++ m.title ++ s2l "\"\nAuthors:\n" ++
        joinNl (m.authors.map authorLine)) ++ '\n' ::
        (s2l "Book:" ++ ((s2l " \"[[" ++ m.book ++ s2l "]]\"\nDate: \"" ++
          m.publication_date ++ s2l "\"") ++ z)) := by
  simp only [newFields, List.append_assoc]
  rfl

/-- Decomposition of the block at the newline before its `Date:` key. -/
theorem nf_at_date (m : MarkdownMetadata) (z : Str) :
    (newFields m ++ z : Str) =
      (s2l "Title: \"" ++ m.title ++ s2l "\"\nAuthors:\n" ++
        joinNl (m.authors.map authorLine) ++ s2l "\nBook: \"[[" ++ m.book ++
        s2l "]]\"") ++ '\n' ::
        (s2l "Date:" ++ ((s2l " \"" ++ m.publication_date ++ s2l "\"") ++ z)) := by
  simp only [newFields, List.append_assoc]
  rfl

/-- The `Title:` key at the head of the block exposes a `'T'`. -/
theorem titleKey_cons (X : Str) :
    (s2l "Title:" ++ X : Str) = 'T' :: (s2l "itle:" ++ X) := rfl

/-- Unfolding one injection step when the document has front matter. -/
theorem inject_of_match (content : Str) (m : MarkdownMetadata) (g1 rest : Str)
    (h : frontmatterMatch content = some (g1, rest)) :
    add_title_to_frontmatter content m =
      s2l "---\n" ++ newFields m ++ s2l "\n" ++ pyStrip g1 ++
        s2l "\n---" ++ rest := by
  simp only [add_title_to_frontmatter, h]

/-- A key occurring mid-block occurs twice in a doubled block. -/
theorem countStarts_interior (key A R : Str) (m : MarkdownMetadata)
    (tl2 : Str)
    (hA : ∀ z : Str, (newFields m ++ z : Str) =
      A ++ '\n' :: (key ++ (R ++ z))) :
    2 ≤ countStarts key (newFields m ++ '\n' :: (newFields m ++ tl2)) := by
  refine countStarts_two_of_decomp key _ A
    (key ++ (R ++ ('\n' :: (newFields m ++ tl2))))
    (key ++ R ++ '\n' :: A) (key ++ (R ++ tl2))
    (hA _) (isPrefixOf_append_self key _) ?_ (isPrefixOf_append_self key _)
  conv_lhs => rw [hA tl2]
  simp only [List.append_assoc, List.cons_append]

/-- A key opening the block occurs twice in a doubled block. -/
theorem countStarts_head_two (key : Str) (m : MarkdownMetadata) (tl2 : Str)
    (hT : ∀ z : Str, ∃ w, (newFields m ++ z : Str) = key ++ w) :
    2 ≤ countStarts key (newFields m ++ '\n' :: (newFields m ++ tl2)) := by
  obtain ⟨w1, hw1⟩ := hT ('\n' :: (newFields m ++ tl2))
  obtain ⟨w2, hw2⟩ := hT tl2
  refine countStarts_two_of_prefix key _ (newFields m) (newFields m ++ tl2)
    ?_ rfl ?_
  · rw [hw1]; exact isPrefixOf_append_self key w1
  · rw [hw2]; exact isPrefixOf_append_self key w2

/-- C5: injecting the same metadata twice yields a document whose re-parsed
front matter starts at least two lines with each of the four keys `Title:`,
`Authors:`, `Book:` and `Date:` — the duplicated key sets of the claim —
provided no metadata field contains a newline. -/
theorem C5_double_inject_two_key_sets (doc : Str) (m : MarkdownMetadata)
    (ht : '\n' ∉ m.title) (ha : ∀ a ∈ m.authors, '\n' ∉ a)
    (hb : '\n' ∉ m.book) (hd : '\n' ∉ m.publication_date) :
    ∃ fm r, frontmatterMatch
        (add_title_to_frontmatter (add_title_to_frontmatter doc m) m) =
        some (fm, r) ∧
      2 ≤ countStarts (s2l "Title:") fm ∧
      2 ≤ countStarts (s2l "Authors:") fm ∧
      2 ≤ countStarts (s2l "Book:") fm ∧
      2 ≤ countStarts (s2l "Date:") fm := by
  have hfree : hasInfix (s2l "\n---") (newFields m) = false :=
    newFields_free m ht ha hb hd
  obtain ⟨tl, r, hm1, htl, hfree1⟩ := frontmatterMatch_inject doc m hfree
  have hstep := inject_of_match (add_title_to_frontmatter doc m) m _ _ hm1
  have hdrop : (newFields m ++ tl : Str).dropWhile isPySpace =
      newFields m ++ tl := by
    rw [nf_at_title m tl, titleKey_cons,
      List.dropWhile_cons_of_neg (by decide)]
  have hr0 : rstripP (newFields m) = newFields m := by
    rw [newFields_snoc m]
    exact rstripP_nonspace_end _ '"' (by decide)
  obtain ⟨tl2, hps, v, hv⟩ : ∃ tl2, pyStrip (newFields m ++ tl) =
      newFields m ++ tl2 ∧ ∃ v, tl = tl2 ++ v := by
    by_cases hz : rstripP tl = []
    · refine ⟨[], ?_, ?_⟩
      · rw [pyStrip, hdrop, rstripP_append, if_pos hz, hr0, List.append_nil]
      · obtain ⟨w, hw⟩ := rstripP_decomp tl
        rw [hz] at hw
        exact ⟨w, hw⟩
    · refine ⟨rstripP tl, ?_, rstripP_decomp tl⟩
      rw [pyStrip, hdrop, rstripP_append, if_neg hz]
  have hfree2 : hasInfix (s2l "\n---") (newFields m ++ tl2) = false := by
    refine free_of_sub _ (newFields m ++ tl2) [] v (newFields m ++ tl) ?_
      hfree1
    rw [hv]
    simp [List.append_assoc]
  have hhead : (newFields m ++ tl2 : Str).head? = some 'T' := by
    rw [nf_at_title m tl2, titleKey_cons]
    rfl
  have hfreeX : hasInfix (s2l "\n---")
      (newFields m ++ '\n' :: (newFields m ++ tl2)) = false :=
    free_append_head (newFields m) ('\n' :: (newFields m ++ tl2)) hfree
      (nl_cons_free _ hfree2 (dashes_not_first _ 'T' hhead (by decide)))
      (head_ne_dash_of_eq _ '\n' rfl (by decide))
  have hshape : (s2l "---\n" ++ newFields m ++ s2l "\n" ++
      (newFields m ++ tl2) ++ s2l "\n---" ++ r : Str) =
      s2l "---\n" ++ ((newFields m ++ '\n' :: (newFields m ++ tl2)) ++
        s2l "\n---" ++ r) := by
    simp only [List.append_assoc, List.cons_append]
    rfl
  have hfm2 : frontmatterMatch
      (add_title_to_frontmatter (add_title_to_frontmatter doc m) m) =
      some (newFields m ++ '\n' :: (newFields m ++ tl2), r) := by
    rw [hstep, hps, hshape, frontmatterMatch,
      if_pos (isPrefixOf_append_self (s2l "---\n") _),
      List.drop_left' (by rfl),
      splitOnFirst_exact _ _ hfreeX]
  refine ⟨newFields m ++ '\n' :: (newFields m ++ tl2), r, hfm2, ?_, ?_, ?_, ?_⟩
  · exact countStarts_head_two (s2l "Title:") m tl2
      (fun z => ⟨_, nf_at_title m z⟩)
  · exact countStarts_interior (s2l "Authors:") _ _ m tl2 (nf_at_authors m)
  · exact countStarts_interior (s2l "Book:") _ _ m tl2 (nf_at_book m)
  · exact countStarts_interior (s2l "Date:") _ _ m tl2 (nf_at_date m)

/-- Concrete instance of the amended C5 theorem. -/
theorem C5_double_inject_two_key_sets_witness :
    ∃ fm r, frontmatterMatch
        (add_title_to_frontmatter
          (add_title_to_frontmatter (s2l "x")
            ⟨s2l "T", [s2l "A"], s2l "B", s2l "D"⟩)
          ⟨s2l "T", [s2l "A"], s2l "B", s2l "D"⟩) = some (fm, r) ∧
      2 ≤ countStarts (s2l "Title:") fm ∧
      2 ≤ countStarts (s2l "Authors:") fm ∧
      2 ≤ countStarts (s2l "Book:") fm ∧
      2 ≤ countStarts (s2l "Date:") fm :=
  C5_double_inject_two_key_sets (s2l "x")
    ⟨s2l "T", [s2l "A"], s2l "B", s2l "D"⟩
    (by decide) (by decide) (by decide) (by decide)

/-! ## Counterexamples to C1, C5 and C6 as universally stated -/

/-- C1 counterexample: for the empty metadata (all fields empty), the
injected document fails validation — the `Title:` and `Date:` value
regexes require a non-empty quoted value, so validation reports errors and
`is_valid = false`, refuting `isValid = true` "for all doc and meta". -/
theorem C1_counterexample :
    (validate_frontmatter
      (add_title_to_frontmatter [] ⟨[], [], [], []⟩) ⟨[], [], [], []⟩).is_valid
      = false := rfl

/-- C5 counterexample: with a title containing a newline followed by `---`,
the front matter of the double injection is truncated at the injected
`\n---` and contains no `Authors:` line at all — not two full key sets. -/
theorem C5_counterexample :
    (frontmatterMatch
      (add_title_to_frontmatter
        (add_title_to_frontmatter [] ⟨s2l "A\n---B", [], [], []⟩)
        ⟨s2l "A\n---B", [], [], []⟩)).map
      (fun p => countStarts (s2l "Authors:") p.1) = some 0 := rfl

/-- C6 counterexample: when the existing front-matter block starts with
whitespace (`  a: 1`), the injector re-emits it `strip`ped, so the existing
key-value line is not preserved verbatim. -/
theorem C6_counterexample :
    frontmatterMatch (s2l "---\n  a: 1\n---\nB") =
      some (s2l "  a: 1", s2l "\nB") ∧
    add_title_to_frontmatter (s2l "---\n  a: 1\n---\nB")
        ⟨s2l "T", [s2l "A"], s2l "B", s2l "D"⟩ ≠
      s2l "---\n" ++ newFields ⟨s2l "T", [s2l "A"], s2l "B", s2l "D"⟩ ++
        s2l "\n" ++ s2l "  a: 1" ++ s2l "\n---" ++ s2l "\nB" :=
  ⟨rfl, by decide⟩

end RapObsidian
